import Mathlib

/-!
Verification of the terminal-state mirror and websocket RPC multiplexer of the
metaapi-node.js-sdk repository.

The JavaScript source is embedded shallowly:
* JavaScript numbers are modelled as `JNum`, either a rational value or `nan`
  (standing for the non-finite results of JavaScript arithmetic); fields that
  may be `undefined` are `Option`-valued.
* JavaScript objects whose exact key set matters for serialization are modelled
  as association lists of `String × JValue`.
* `Date.now()` and incoming `time.getTime()` values are explicit integer
  millisecond arguments.
* The in-place mutation of the JS classes becomes explicit state passing:
  each listener callback of `terminalState.es6` is a function from the model
  state to the model state.
-/

set_option maxRecDepth 4000

/-- A JavaScript number: either a rational value or `NaN`.  `nan` also stands
for the other non-finite results of JS arithmetic (the code paths exercised by
the claims never divide by zero). -/
inductive JNum where
  | nan : JNum
  | val : ℚ → JNum
deriving DecidableEq, Repr

/-- Coercion of a possibly-`undefined` JS value into arithmetic: `undefined`
used as a number is `NaN`. -/
def toNum : Option JNum → JNum
  | none => JNum.nan
  | some v => v

/-- JS `+` on numbers, `NaN`-propagating. -/
def jadd : JNum → JNum → JNum
  | JNum.val a, JNum.val b => JNum.val (a + b)
  | _, _ => JNum.nan

/-- JS `-` on numbers, `NaN`-propagating. -/
def jsub : JNum → JNum → JNum
  | JNum.val a, JNum.val b => JNum.val (a - b)
  | _, _ => JNum.nan

/-- JS `*` on numbers, `NaN`-propagating. -/
def jmul : JNum → JNum → JNum
  | JNum.val a, JNum.val b => JNum.val (a * b)
  | _, _ => JNum.nan

/-- JS `/` on numbers; division by zero is modelled as `nan` (the claims never
exercise it; in JS it would be an infinity). -/
def jdiv : JNum → JNum → JNum
  | JNum.val a, JNum.val b => if b = 0 then JNum.nan else JNum.val (a / b)
  | _, _ => JNum.nan

/-- JS `x > 0` comparison; false on `NaN`. -/
def jgtZero : JNum → Bool
  | JNum.val a => decide (0 < a)
  | JNum.nan => false

/-- JS `Math.round`: round half toward positive infinity. -/
def jsRound (q : ℚ) : ℤ := ⌊q + 1 / 2⌋

/-- JS `Math.round(x * m) / m`, the rounding idiom used throughout
`terminalState.es6` (`m` is `Math.pow(10, digits)` or `100`). -/
def roundMult (m : ℚ) : JNum → JNum
  | JNum.nan => JNum.nan
  | JNum.val q => JNum.val ((jsRound (q * m) : ℚ) / m)

/-- `Math.round(x * 100) / 100`: rounding to two decimal places. -/
def round2 : JNum → JNum := roundMult 100

/-- JS `x || 0` for a possibly-`undefined` number: `undefined`, `NaN` and `0`
all give `0`. -/
def orZero : Option JNum → JNum
  | none => JNum.val 0
  | some JNum.nan => JNum.val 0
  | some (JNum.val q) => JNum.val q

/-!
JSON-like values carried in wire packets (after the `JSON.parse(JSON.stringify(...))`
clone of `getHashes`, so without `Date` objects and without `NaN`).  Arrays and
objects use the mutually-inductive `JArray`/`JFields` spines so that the
serializers below are plain structural recursions.
-/

mutual
/-- A JSON value. -/
inductive JValue where
  | null : JValue
  | boolean (b : Bool) : JValue
  | num (q : ℚ) : JValue
  | str (s : String) : JValue
  | arr (items : JArray) : JValue
  | obj (fields : JFields) : JValue
inductive JArray where
  | nil : JArray
  | cons (v : JValue) (rest : JArray) : JArray
inductive JFields where
  | nil : JFields
  | cons (k : String) (v : JValue) (rest : JFields) : JFields
end

/-- Build an array spine from a list of values. -/
def JArray.ofList : List JValue → JArray
  | [] => JArray.nil
  | v :: rest => JArray.cons v (JArray.ofList rest)

/-- Build an object spine from an association list of fields. -/
def JFields.ofList : List (String × JValue) → JFields
  | [] => JFields.nil
  | (k, v) :: rest => JFields.cons k v (JFields.ofList rest)

/-- Insert-or-overwrite on an association list, mirroring JS `o[k] = v`:
an existing key keeps its place in the key order, a new key is appended. -/
def assocSet {β : Type} (l : List (String × β)) (k : String) (v : β) : List (String × β) :=
  if l.any (fun p => p.1 == k) then l.map (fun p => if p.1 == k then (k, v) else p)
  else l ++ [(k, v)]

/-- JS `delete o[k]` on an association list. -/
def assocErase {β : Type} (l : List (String × β)) (k : String) : List (String × β) :=
  l.filter (fun p => ¬ p.1 == k)

/-- Decimal digits of a natural number. -/
def natDecimal (n : ℕ) : String := toString n

/-- Left-pad a decimal string with zeros to the given width. -/
def padZeros (width : ℕ) (s : String) : String :=
  String.mk (List.replicate (width - s.length) '0') ++ s

/-- Render a nonnegative scaled integer `m` (equal to `x * 10^f`) as a fixed
`f`-decimal string. -/
def fixedOfScaled (f : ℕ) (m : ℕ) : String :=
  if f = 0 then natDecimal m
  else natDecimal (m / 10 ^ f) ++ "." ++ padZeros f (natDecimal (m % 10 ^ f))

/-- JS `Number.prototype.toFixed(8)`: the sign is split off first, then the
magnitude is rounded to the nearest multiple of `10^-8`, half away from zero
(ECMA-262 picks the larger scaled integer on a tie, applied to the magnitude). -/
def toFixed8 (q : ℚ) : String :=
  if q < 0 then "-" ++ fixedOfScaled 8 (Int.toNat (jsRound (-q * 100000000)))
  else fixedOfScaled 8 (Int.toNat (jsRound (q * 100000000)))

/-- Divide out the factor `p` from `n` as often as possible (fuel-based).
Returns the exponent and the remaining cofactor. -/
def divOutAux (p : ℕ) : ℕ → ℕ → ℕ × ℕ
  | 0, n => (0, n)
  | fuel + 1, n =>
    if p ∣ n ∧ n ≠ 0 ∧ 1 < p then
      let r := divOutAux p fuel (n / p)
      (r.1 + 1, r.2)
    else (0, n)

/-- Divide out the factor `p` from `n` as often as possible. -/
def divOut (p n : ℕ) : ℕ × ℕ := divOutAux p n n

/-- JS number-to-string conversion, as used for template interpolation and
`JSON.stringify` of numbers.  Exact for integers and for rationals with a
finite decimal expansion in the plain-notation range; rationals without a
finite decimal expansion (which do not occur in the hashed data, where every
number is produced by decimal input or decimal rounding) fall back to the
8-decimal fixed form. -/
def jsNumToString (q : ℚ) : String :=
  if q < 0 then "-" ++ jsNumToStringNonneg (-q)
  else jsNumToStringNonneg q
where
  jsNumToStringNonneg (x : ℚ) : String :=
    if x.den = 1 then natDecimal (Int.toNat x.num)
    else
      let twos := divOut 2 x.den
      let fives := divOut 5 twos.2
      if fives.2 = 1 then
        let k := max twos.1 fives.1
        fixedOfScaled k (Int.toNat (x * (10 : ℚ) ^ k).num)
      else toFixed8 x

/-- Quote a string as in `JSON.stringify`.  The escaping of special characters
is not modelled; none of the strings handled by the claims contain any. -/
def jsonQuote (s : String) : String := "\"" ++ s ++ "\""

/-!
`JSON.stringify` (natural JSON), used for `cloud-g2` hashes; the two
companion functions collect the serialized array items and object properties,
which the main function joins with commas as `Array.prototype.join` does.
-/

mutual
/-- `JSON.stringify` of one value. -/
def jsonStringify : JValue → String
  | JValue.null => "null"
  | JValue.boolean b => cond b "true" "false"
  | JValue.num q => jsNumToString q
  | JValue.str s => jsonQuote s
  | JValue.arr items => "[" ++ String.intercalate "," (jsonStringifyItems items) ++ "]"
  | JValue.obj fields =>
    "\x7b" ++ String.intercalate "," (jsonStringifyProps fields) ++ "\x7d"
def jsonStringifyItems : JArray → List String
  | JArray.nil => []
  | JArray.cons v rest => jsonStringify v :: jsonStringifyItems rest
def jsonStringifyProps : JFields → List String
  | JFields.nil => []
  | JFields.cons k v rest => (jsonQuote k ++ ":" ++ jsonStringify v) :: jsonStringifyProps rest
end

/-!
The custom `cloud-g1` stringifier of `_getHash`: numbers are rendered with
`toFixed(8)` except under one of the integer keys, which are rendered bare;
the key context is not propagated into arrays (the inner `map` calls
`stringify(item)` without a key).
-/

mutual
/-- The `cloud-g1` stringifier of one value under an optional enclosing key. -/
def g1Stringify (iKeys : List String) : JValue → Option String → String
  | JValue.null, _ => "null"
  | JValue.boolean b, _ => cond b "true" "false"
  | JValue.num q, key =>
    if (key.map (fun k => iKeys.contains k)).getD false then jsNumToString q else toFixed8 q
  | JValue.str s, _ => jsonQuote s
  | JValue.arr items, _ =>
    "[" ++ String.intercalate "," (g1StringifyItems iKeys items) ++ "]"
  | JValue.obj fields, _ =>
    "\x7b" ++ String.intercalate "," (g1StringifyProps iKeys fields) ++ "\x7d"
def g1StringifyItems (iKeys : List String) : JArray → List String
  | JArray.nil => []
  | JArray.cons v rest => g1Stringify iKeys v none :: g1StringifyItems iKeys rest
def g1StringifyProps (iKeys : List String) : JFields → List String
  | JFields.nil => []
  | JFields.cons k v rest =>
    (jsonQuote k ++ ":" ++ g1Stringify iKeys v (some k)) :: g1StringifyProps iKeys rest
end

/-- Hexadecimal digit characters. -/
def hexDigit (n : ℕ) : Char := if n < 10 then Char.ofNat (48 + n) else Char.ofNat (87 + n)

/-- Render a natural number as a 32-character hexadecimal digest string. -/
def hex32 (h : ℕ) : String :=
  String.mk ((List.range 32).map (fun i => hexDigit (h / 16 ^ (31 - i) % 16)))

/-- Modelled from the spec: stands for the external `crypto-js` `MD5(...).toString()`
hex digest, which is not part of this repository.  The claims depend only on the
digest being a deterministic function of the serialized input string, which this
concrete 128-bit folding hash is. -/
def md5Hex (s : String) : String :=
  hex32 (s.data.foldl (fun h c => (h * 131 + c.toNat + 17) % 2 ^ 128) (2 ^ 127 + 5))

/-- `MetatraderAccountInformation` as stored in the terminal state.  Fields the
claims never touch are kept in `rest`. -/
structure AccountInformation where
  platform : String
  balance : Option JNum
  equity : Option JNum
  margin : Option JNum
  freeMargin : Option JNum
  marginLevel : Option JNum
  rest : List (String × JValue)

/-- `MetatraderPosition`.  Numeric fields that may be absent on the wire are
`Option`-valued; remaining (non-volatile) fields such as `time` or
`updateTime` live in `rest` in their wire key order. -/
structure Position where
  id : String
  type : String
  symbol : String
  magic : Option ℤ
  openPrice : Option JNum
  currentPrice : Option JNum
  currentTickValue : Option JNum
  volume : Option JNum
  swap : Option JNum
  commission : Option JNum
  profit : Option JNum
  unrealizedProfit : Option JNum
  realizedProfit : Option JNum
  rest : List (String × JValue)

/-- `MetatraderOrder` (a pending order). -/
structure PendingOrder where
  id : String
  type : String
  symbol : String
  magic : Option ℤ
  currentPrice : Option JNum
  rest : List (String × JValue)

/-- `MetatraderSymbolSpecification`. -/
structure Specification where
  symbol : String
  digits : ℤ
  tickSize : Option JNum
  description : Option String
  rest : List (String × JValue)

/-- `MetatraderSymbolPrice`; `time` is the millisecond value of `p.time.getTime()`. -/
structure SymbolPrice where
  symbol : String
  bid : Option JNum
  ask : Option JNum
  profitTickValue : Option JNum
  lossTickValue : Option JNum
  time : ℤ
deriving Repr

/-- One terminal state record, as built by `_constructTerminalState` (also the
shape of `_combinedState`; the combined state simply never reads its
`connected` flags). -/
structure TState where
  connected : Bool
  connectedToBroker : Bool
  accountInformation : Option AccountInformation
  positions : List Position
  orders : List PendingOrder
  specificationsBySymbol : List (String × Specification)
  pricesBySymbol : List (String × SymbolPrice)
  completedOrders : List (String × ℤ)
  removedPositions : List (String × ℤ)
  ordersInitialized : Bool
  positionsInitialized : Bool
  lastUpdateTime : JNum

/-- The fresh per-instance state (`_constructTerminalState`) and the initial
combined state of the constructor. -/
def initialTState : TState where
  connected := false
  connectedToBroker := false
  accountInformation := none
  positions := []
  orders := []
  specificationsBySymbol := []
  pricesBySymbol := []
  completedOrders := []
  removedPositions := []
  ordersInitialized := false
  positionsInitialized := false
  lastUpdateTime := JNum.val 0

/-- The whole `TerminalState` object: `_stateByInstanceIndex` plus
`_combinedState`. -/
structure TerminalStateModel where
  stateByInstanceIndex : List (String × TState)
  combinedState : TState

/-- The state of a fresh `TerminalState` instance (constructor). -/
def initialModel : TerminalStateModel where
  stateByInstanceIndex := []
  combinedState := initialTState

/-- `_getState`: look the instance up, defaulting to a fresh state. -/
def getState (m : TerminalStateModel) (instanceIndex : String) : TState :=
  (List.lookup instanceIndex m.stateByInstanceIndex).getD initialTState

/-- Store an instance state back into the map (the JS object mutation). -/
def setState (m : TerminalStateModel) (instanceIndex : String) (s : TState) :
    TerminalStateModel :=
  { m with stateByInstanceIndex := assocSet m.stateByInstanceIndex instanceIndex s }

/-- `onConnected`. -/
def onConnected (instanceIndex : String) (m : TerminalStateModel) : TerminalStateModel :=
  setState m instanceIndex { getState m instanceIndex with connected := true }

/-- `onDisconnected`. -/
def onDisconnected (instanceIndex : String) (m : TerminalStateModel) : TerminalStateModel :=
  setState m instanceIndex
    { getState m instanceIndex with connected := false, connectedToBroker := false }

/-- `onBrokerConnectionStatusChanged`. -/
def onBrokerConnectionStatusChanged (instanceIndex : String) (connected : Bool)
    (m : TerminalStateModel) : TerminalStateModel :=
  setState m instanceIndex { getState m instanceIndex with connectedToBroker := connected }

/-- `onSynchronizationStarted`. -/
def onSynchronizationStarted (instanceIndex : String)
    (specificationsUpdated positionsUpdated ordersUpdated : Bool)
    (m : TerminalStateModel) : TerminalStateModel :=
  let s0 := getState m instanceIndex
  let s1 := { s0 with accountInformation := none, pricesBySymbol := [] }
  let s2 := if positionsUpdated then
    { s1 with positions := [], removedPositions := [], positionsInitialized := false } else s1
  let s3 := if ordersUpdated then
    { s2 with orders := [], completedOrders := [], ordersInitialized := false } else s2
  let s4 := if specificationsUpdated then { s3 with specificationsBySymbol := [] } else s3
  setState m instanceIndex s4

/-- `onAccountInformationUpdated`: writes the instance state and the combined
state. -/
def onAccountInformationUpdated (instanceIndex : String)
    (accountInformation : Option AccountInformation) (m : TerminalStateModel) :
    TerminalStateModel :=
  let m1 := setState m instanceIndex
    { getState m instanceIndex with accountInformation := accountInformation }
  { m1 with combinedState := { m1.combinedState with accountInformation := accountInformation } }

/-- `onPositionsReplaced`: instance state only. -/
def onPositionsReplaced (instanceIndex : String) (positions : List Position)
    (m : TerminalStateModel) : TerminalStateModel :=
  setState m instanceIndex { getState m instanceIndex with positions := positions }

/-- `onPositionsSynchronized`: instance state only. -/
def onPositionsSynchronized (instanceIndex : String) (m : TerminalStateModel) :
    TerminalStateModel :=
  setState m instanceIndex
    { getState m instanceIndex with removedPositions := [], positionsInitialized := true }

/-- The inner `updatePosition` closure of `onPositionUpdated`: upsert keyed by
`id`, except that a missing position is not re-inserted while a (truthy)
tombstone for its id is present in `removedPositions`. -/
def updatePosition (position : Position) (state : TState) : TState :=
  match state.positions.findIdx? (fun p => p.id == position.id) with
  | some i => { state with positions := state.positions.set i position }
  | none =>
    match List.lookup position.id state.removedPositions with
    | some t =>
      if t = 0 then { state with positions := state.positions ++ [position] } else state
    | none => { state with positions := state.positions ++ [position] }

/-- `onPositionUpdated`: applies `updatePosition` to the instance state and to
the combined state. -/
def onPositionUpdated (instanceIndex : String) (position : Position)
    (m : TerminalStateModel) : TerminalStateModel :=
  let m1 := setState m instanceIndex (updatePosition position (getState m instanceIndex))
  { m1 with combinedState := updatePosition position m1.combinedState }

/-- The inner `removePosition` closure of `onPositionRemoved`: a present
position is deleted; otherwise tombstones older than five minutes are evicted
and a tombstone `removedPositions[id] = Date.now()` is written.  `now` models
`Date.now()` in milliseconds. -/
def removePosition (positionId : String) (now : ℤ) (state : TState) : TState :=
  match state.positions.find? (fun p => p.id == positionId) with
  | some _ => { state with positions := state.positions.filter (fun p => ¬ p.id == positionId) }
  | none =>
    let kept := state.removedPositions.filter (fun e => ¬ e.2 + 5 * 60 * 1000 < now)
    { state with removedPositions := assocSet kept positionId now }

/-- `onPositionRemoved`: applies `removePosition` to the instance state and to
the combined state. -/
def onPositionRemoved (instanceIndex : String) (positionId : String) (now : ℤ)
    (m : TerminalStateModel) : TerminalStateModel :=
  let m1 := setState m instanceIndex (removePosition positionId now (getState m instanceIndex))
  { m1 with combinedState := removePosition positionId now m1.combinedState }

/-- `onPendingOrdersReplaced`: instance state only. -/
def onPendingOrdersReplaced (instanceIndex : String) (orders : List PendingOrder)
    (m : TerminalStateModel) : TerminalStateModel :=
  setState m instanceIndex { getState m instanceIndex with orders := orders }

/-- `onPendingOrdersSynchronized`: marks the instance synchronized and then
promotes its account information, positions, orders and specifications into
the combined state, resetting the combined tombstone maps. -/
def onPendingOrdersSynchronized (instanceIndex : String) (m : TerminalStateModel) :
    TerminalStateModel :=
  let s1 := { getState m instanceIndex with
    completedOrders := [], positionsInitialized := true, ordersInitialized := true }
  let m1 := setState m instanceIndex s1
  { m1 with combinedState := { m1.combinedState with
      accountInformation := s1.accountInformation
      positions := s1.positions
      orders := s1.orders
      specificationsBySymbol := s1.specificationsBySymbol
      positionsInitialized := true
      ordersInitialized := true
      completedOrders := []
      removedPositions := [] } }

/-- The inner `updatePendingOrder` closure of `onPendingOrderUpdated`. -/
def updatePendingOrder (order : PendingOrder) (state : TState) : TState :=
  match state.orders.findIdx? (fun o => o.id == order.id) with
  | some i => { state with orders := state.orders.set i order }
  | none =>
    match List.lookup order.id state.completedOrders with
    | some t =>
      if t = 0 then { state with orders := state.orders ++ [order] } else state
    | none => { state with orders := state.orders ++ [order] }

/-- `onPendingOrderUpdated`: instance state and combined state. -/
def onPendingOrderUpdated (instanceIndex : String) (order : PendingOrder)
    (m : TerminalStateModel) : TerminalStateModel :=
  let m1 := setState m instanceIndex (updatePendingOrder order (getState m instanceIndex))
  { m1 with combinedState := updatePendingOrder order m1.combinedState }

/-- The inner `completeOrder` closure of `onPendingOrderCompleted`. -/
def completeOrder (orderId : String) (now : ℤ) (state : TState) : TState :=
  match state.orders.find? (fun o => o.id == orderId) with
  | some _ => { state with orders := state.orders.filter (fun o => ¬ o.id == orderId) }
  | none =>
    let kept := state.completedOrders.filter (fun e => ¬ e.2 + 5 * 60 * 1000 < now)
    { state with completedOrders := assocSet kept orderId now }

/-- `onPendingOrderCompleted`: instance state and combined state. -/
def onPendingOrderCompleted (instanceIndex : String) (orderId : String) (now : ℤ)
    (m : TerminalStateModel) : TerminalStateModel :=
  let m1 := setState m instanceIndex (completeOrder orderId now (getState m instanceIndex))
  { m1 with combinedState := completeOrder orderId now m1.combinedState }

/-- The inner `updateSpecifications` closure of `onSymbolSpecificationsUpdated`. -/
def updateSpecifications (specifications : List Specification) (removedSymbols : List String)
    (state : TState) : TState :=
  let afterAdd := specifications.foldl
    (fun acc spec => assocSet acc spec.symbol spec) state.specificationsBySymbol
  { state with specificationsBySymbol :=
      removedSymbols.foldl (fun acc sym => assocErase acc sym) afterAdd }

/-- `onSymbolSpecificationsUpdated`: instance state and combined state. -/
def onSymbolSpecificationsUpdated (instanceIndex : String)
    (specifications : List Specification) (removedSymbols : List String)
    (m : TerminalStateModel) : TerminalStateModel :=
  let m1 := setState m instanceIndex
    (updateSpecifications specifications removedSymbols (getState m instanceIndex))
  { m1 with combinedState := updateSpecifications specifications removedSymbols m1.combinedState }

/-- `onStreamClosed`: deletes the instance state. -/
def onStreamClosed (instanceIndex : String) (m : TerminalStateModel) : TerminalStateModel :=
  { m with stateByInstanceIndex := assocErase m.stateByInstanceIndex instanceIndex }

/-- `_updatePositionProfits`: recompute a position's P&L from a price.  The
specification is resolved in `combinedSpecs`, modelling the `specification()`
getter, which reads `_combinedState.specificationsBySymbol` only; without a
specification the position is untouched. -/
def updatePositionProfits (combinedSpecs : List (String × Specification))
    (position : Position) (price : SymbolPrice) : Position :=
  match List.lookup position.symbol combinedSpecs with
  | none => position
  | some specification =>
    let m : ℚ := (10 : ℚ) ^ specification.digits
    let dir : JNum := JNum.val (if position.type == "POSITION_TYPE_BUY" then 1 else -1)
    let profit1 : Option JNum := match position.profit with
      | none => none
      | some p => some (roundMult m p)
    let recompute := position.unrealizedProfit = none ∨ position.realizedProfit = none
    let urp1 : Option JNum :=
      if recompute then
        some (roundMult m (jdiv (jmul (jmul (jmul dir
          (jsub (toNum position.currentPrice) (toNum position.openPrice)))
          (toNum position.currentTickValue)) (toNum position.volume))
          (toNum specification.tickSize)))
      else position.unrealizedProfit
    let rp1 : Option JNum :=
      if recompute then some (jsub (toNum profit1) (toNum urp1))
      else position.realizedProfit
    let newPositionPrice : Option JNum :=
      if position.type == "POSITION_TYPE_BUY" then price.bid else price.ask
    let isProfitable : JNum := jmul dir (jsub (toNum newPositionPrice) (toNum position.openPrice))
    let currentTickValue : Option JNum :=
      if jgtZero isProfitable then price.profitTickValue else price.lossTickValue
    let unrealizedProfit : JNum := roundMult m (jdiv (jmul (jmul (jmul dir
      (jsub (toNum newPositionPrice) (toNum position.openPrice)))
      (toNum currentTickValue)) (toNum position.volume)) (toNum specification.tickSize))
    let profit2 : JNum := roundMult m (jadd unrealizedProfit (toNum rp1))
    { position with
      profit := some profit2
      unrealizedProfit := some unrealizedProfit
      realizedProfit := rp1
      currentPrice := newPositionPrice
      currentTickValue := currentTickValue }

/-- JS `Math.max(arr)` applied to an array value (as on line 439 of
`terminalState.es6`): the single argument is coerced with `ToNumber`, so an
empty array yields `0`, a one-element array yields its element, and a longer
array yields `NaN`. -/
def jsMaxOfArray : List ℤ → JNum
  | [] => JNum.val 0
  | [t] => JNum.val t
  | _ => JNum.nan

/-- The per-price accumulator of the `for (let price of prices)` loop. -/
structure PriceLoopAcc where
  pricesBySymbol : List (String × SymbolPrice)
  positions : List Position
  orders : List PendingOrder
  pricesInitialized : Bool

/-- Whether an order type is one of the BUY variants (line 461). -/
def isBuyOrderType (t : String) : Bool :=
  t == "ORDER_TYPE_BUY" || t == "ORDER_TYPE_BUY_LIMIT" ||
  t == "ORDER_TYPE_BUY_STOP" || t == "ORDER_TYPE_BUY_STOP_LIMIT"

/-!
One iteration of the price loop: store the price, update the P&L of positions
of this symbol from the new price and of still-unpriced positions of other
symbols from their stored price, recompute the `pricesInitialized` flag (it is
reset to `true` at the top of every iteration, so only the last iteration's
value survives), and update matching pending orders.
-/

/-- The per-position body of one price-loop iteration. -/
def pricePositionUpdate (combinedSpecs : List (String × Specification))
    (prices1 : List (String × SymbolPrice)) (price : SymbolPrice)
    (position : Position) : Position :=
  if position.symbol == price.symbol then
    updatePositionProfits combinedSpecs position price
  else
    match List.lookup position.symbol prices1 with
    | some p =>
      if position.unrealizedProfit = none then
        updatePositionProfits combinedSpecs position p
      else position
    | none => position

/-- One iteration of the price loop (see the doc comment above). -/
def priceStep (combinedSpecs : List (String × Specification))
    (acc : PriceLoopAcc) (price : SymbolPrice) : PriceLoopAcc :=
  let prices1 := assocSet acc.pricesBySymbol price.symbol price
  let positions1 := acc.positions.map (pricePositionUpdate combinedSpecs prices1 price)
  let initialized1 := acc.positions.all (fun position =>
    position.symbol == price.symbol || (List.lookup position.symbol prices1).isSome)
  let orders1 := acc.orders.map (fun order =>
    if order.symbol == price.symbol then
      { order with currentPrice := if isBuyOrderType order.type then price.ask else price.bid }
    else order)
  { pricesBySymbol := prices1, positions := positions1, orders := orders1,
    pricesInitialized := initialized1 }

/-- The whole price loop. -/
def processPrices (combinedSpecs : List (String × Specification))
    (acc : PriceLoopAcc) : List SymbolPrice → PriceLoopAcc
  | [] => acc
  | price :: rest => processPrices combinedSpecs (priceStep combinedSpecs acc price) rest

/-- The account-information block of `updateSymbolPrices` (lines 472-492):
equity recomputation or pass-through, and the margin/freeMargin/marginLevel
assignments.  Note the code's `marginLevel` assignment is gated on
`freeMargin !== undefined`. -/
def updateAccountInformation (ai : AccountInformation)
    (positionsInitialized pricesInitialized : Bool) (positions : List Position)
    (equity margin freeMargin marginLevel : Option JNum) : AccountInformation :=
  let equity1 : Option JNum :=
    if positionsInitialized && pricesInitialized then
      let base : JNum := match equity with
        | some e => e
        | none =>
          if ai.platform == "mt5" then
            jadd (toNum ai.balance) (positions.foldl
              (fun a p => jadd (jadd a (round2 (orZero p.unrealizedProfit)))
                (round2 (orZero p.swap))) (JNum.val 0))
          else
            jadd (toNum ai.balance) (positions.foldl
              (fun a p => jadd (jadd (jadd a (round2 (orZero p.swap)))
                (round2 (orZero p.commission))) (round2 (orZero p.unrealizedProfit)))
              (JNum.val 0))
      some (round2 base)
    else
      match equity with
      | some e => some e
      | none => ai.equity
  { ai with
    equity := equity1
    margin := match margin with | some x => some x | none => ai.margin
    freeMargin := match freeMargin with | some x => some x | none => ai.freeMargin
    marginLevel := if freeMargin.isSome then marginLevel else ai.marginLevel }

/-- The inner `updateSymbolPrices` closure of `onSymbolPricesUpdated`, applied
to one state.  `combinedSpecs` is the combined state's
`specificationsBySymbol`, read by the `specification()` getter for every P&L
recomputation regardless of which state is being updated. -/
def updateSymbolPrices (combinedSpecs : List (String × Specification))
    (prices : List SymbolPrice) (equity margin freeMargin marginLevel : Option JNum)
    (state : TState) : TState :=
  let r := processPrices combinedSpecs
    { pricesBySymbol := state.pricesBySymbol, positions := state.positions,
      orders := state.orders, pricesInitialized := false } prices
  { state with
    lastUpdateTime := jsMaxOfArray (prices.map (fun p => p.time))
    pricesBySymbol := r.pricesBySymbol
    positions := r.positions
    orders := r.orders
    accountInformation := match state.accountInformation with
      | none => none
      | some ai => some (updateAccountInformation ai state.positionsInitialized
          r.pricesInitialized r.positions equity margin freeMargin marginLevel) }

/-- `onSymbolPricesUpdated`: applies `updateSymbolPrices` to the instance state
and then to the combined state; both applications resolve specifications in
the combined state's `specificationsBySymbol` (which this callback never
modifies). -/
def onSymbolPricesUpdated (instanceIndex : String) (prices : List SymbolPrice)
    (equity margin freeMargin marginLevel : Option JNum) (m : TerminalStateModel) :
    TerminalStateModel :=
  let combinedSpecs := m.combinedState.specificationsBySymbol
  let m1 := setState m instanceIndex
    (updateSymbolPrices combinedSpecs prices equity margin freeMargin marginLevel
      (getState m instanceIndex))
  { m1 with combinedState :=
      (updateSymbolPrices combinedSpecs prices equity margin freeMargin marginLevel
        m1.combinedState) }

/-- A possibly-missing numeric field after the `JSON.parse(JSON.stringify(...))`
clone: `undefined` keys are dropped and `NaN` becomes JSON `null`. -/
def optNumField (k : String) : Option JNum → List (String × JValue)
  | none => []
  | some JNum.nan => [(k, JValue.null)]
  | some (JNum.val q) => [(k, JValue.num q)]

/-- A possibly-missing integer field (cloned). -/
def optIntField (k : String) : Option ℤ → List (String × JValue)
  | none => []
  | some n => [(k, JValue.num (n : ℚ))]

/-- The cloned JSON object of a specification, in wire key order. -/
def specHashValue (spec : Specification) : JValue :=
  JValue.obj (JFields.ofList
    ([("symbol", JValue.str spec.symbol), ("digits", JValue.num (spec.digits : ℚ))] ++
    optNumField "tickSize" spec.tickSize ++
    (match spec.description with
      | none => []
      | some d => [("description", JValue.str d)]) ++
    spec.rest))

/-- Keys deleted from every cloned position before hashing (lines 112-127);
`profit`, `unrealizedProfit`, `realizedProfit`, `currentPrice` and
`currentTickValue` are structure fields here and are simply never emitted. -/
def positionStripKeys (accountType : String) : List String :=
  if accountType == "cloud-g1" then
    ["updateSequenceNumber", "accountCurrencyExchangeRate", "comment", "brokerComment",
     "clientId", "time", "updateTime"]
  else
    ["updateSequenceNumber", "accountCurrencyExchangeRate", "comment", "brokerComment",
     "clientId"]

/-- The cloned and stripped JSON object of a position. -/
def positionHashValue (accountType : String) (p : Position) : JValue :=
  JValue.obj (JFields.ofList
    ([("id", JValue.str p.id), ("type", JValue.str p.type),
    ("symbol", JValue.str p.symbol)] ++
    optIntField "magic" p.magic ++ optNumField "openPrice" p.openPrice ++
    optNumField "volume" p.volume ++ optNumField "swap" p.swap ++
    optNumField "commission" p.commission ++
    p.rest.filter (fun kv => ¬ (positionStripKeys accountType).contains kv.1)))

/-- Keys deleted from every cloned order before hashing (lines 133-143);
`currentPrice` is a structure field and is never emitted. -/
def orderStripKeys (accountType : String) : List String :=
  if accountType == "cloud-g1" then
    ["updateSequenceNumber", "accountCurrencyExchangeRate", "comment", "brokerComment",
     "clientId", "time"]
  else
    ["updateSequenceNumber", "accountCurrencyExchangeRate", "comment", "brokerComment",
     "clientId"]

/-- The cloned and stripped JSON object of a pending order. -/
def orderHashValue (accountType : String) (o : PendingOrder) : JValue :=
  JValue.obj (JFields.ofList
    ([("id", JValue.str o.id), ("type", JValue.str o.type),
    ("symbol", JValue.str o.symbol)] ++
    optIntField "magic" o.magic ++
    o.rest.filter (fun kv => ¬ (orderStripKeys accountType).contains kv.1)))

/-- `_getHash`'s serialization step: the custom stringifier for `cloud-g1`,
natural JSON for `cloud-g2`, and the empty string for any other account type
(the JS `jsonItem` stays `''`). -/
def getHashString (accountType : String) (integerKeys : List String) (v : JValue) : String :=
  if accountType == "cloud-g1" then g1Stringify integerKeys v none
  else if accountType == "cloud-g2" then jsonStringify v
  else ""

/-- `_getHash`: MD5 hex of the serialization. -/
def getHash (accountType : String) (integerKeys : List String) (v : JValue) : String :=
  md5Hex (getHashString accountType integerKeys v)

/-- The result record of `getHashes`. -/
structure Hashes where
  specificationsMd5 : Option String
  positionsMd5 : Option String
  ordersMd5 : Option String
deriving DecidableEq, Repr

/-!
`getHashes(accountType, instanceIndex)` applied to the instance's state:
clone the collections, sort specifications by `symbol` and positions and
orders by `id`, strip the volatile fields (plus `description` from
specifications under `cloud-g1`), serialize and hash.  A `null` hash is
produced for empty specifications and for positions/orders before their
initialization flag is set.
-/

/-- The `specifications.sort((a,b) => sortByKey(a, b, 'symbol'))` step. -/
def sortSpecifications (l : List Specification) : List Specification :=
  List.insertionSort (fun a b => a.symbol ≤ b.symbol) l

/-- The `positions.sort((a,b) => sortByKey(a, b, 'id'))` step. -/
def sortPositions (l : List Position) : List Position :=
  List.insertionSort (fun a b => a.id ≤ b.id) l

/-- The `orders.sort((a,b) => sortByKey(a, b, 'id'))` step. -/
def sortOrders (l : List PendingOrder) : List PendingOrder :=
  List.insertionSort (fun a b => a.id ≤ b.id) l

/-- `getHashes(accountType, instanceIndex)` applied to the instance's state. -/
def getHashes (accountType : String) (state : TState) : Hashes :=
  let specifications0 := sortSpecifications (state.specificationsBySymbol.map Prod.snd)
  let specifications := if accountType == "cloud-g1" then
      specifications0.map (fun s => { s with description := none })
    else specifications0
  let specificationsHash := if specifications.length ≠ 0 then
      some (getHash accountType ["digits"]
        (JValue.arr (JArray.ofList (specifications.map specHashValue))))
    else none
  let positions := sortPositions state.positions
  let positionsHash := if state.positionsInitialized then
      some (getHash accountType ["magic"]
        (JValue.arr (JArray.ofList (positions.map (positionHashValue accountType)))))
    else none
  let orders := sortOrders state.orders
  let ordersHash := if state.ordersInitialized then
      some (getHash accountType ["magic"]
        (JValue.arr (JArray.ofList (orders.map (orderHashValue accountType)))))
    else none
  { specificationsMd5 := specificationsHash, positionsMd5 := positionsHash,
    ordersMd5 := ordersHash }

/-!
The websocket RPC multiplexer (`MetaApiWebsocketClient`).  `_requestResolves`
maps a `requestId` string to the pending request future; futures are modelled
as the consecutive tokens `0, 1, 2, …` in order of `_rpcRequest` invocation.
The `randomstring.generate(32)` call is an external library; the generated id
arrives here as the `rid` field of a `request` event (an oracle input).
-/

/-- An inbound packet, reduced to the field the multiplexer dispatches on. -/
structure WsPacket where
  requestId : String
deriving DecidableEq, Repr

/-- The events driving the multiplexer state: `_rpcRequest` invocations and the
`response` / `processingError` / `close` handlers. -/
inductive WsEvent where
  | request (accountId : String) (rid : String) : WsEvent
  | response (packet : WsPacket) : WsEvent
  | processingError (packet : WsPacket) : WsEvent
  | close : WsEvent
deriving DecidableEq, Repr

/-- A packet delivered to a request future (a `resolve` on `response` or a
`reject` on `processingError`).  The close-time "MetaApi connection closed"
rejections are not packet deliveries and are not recorded here. -/
structure WsDelivery where
  future : ℕ
  packet : WsPacket
  isError : Bool
deriving DecidableEq, Repr

/-- The multiplexer state: the pending map `_requestResolves` (requestId to
future token) and the log `rids` of every generated request id, indexed by
future token (`rids.length` is the next token). -/
structure WsState where
  registry : List (String × ℕ)
  rids : List String
deriving DecidableEq, Repr

/-- The idle client (constructor / after `connect()`'s reset). -/
def initialWsState : WsState where
  registry := []
  rids := []

/-- The shared body of the `response` and `processingError` handlers: look the
packet's `requestId` up in `_requestResolves`, delete the entry and deliver
the packet to that future; an unknown id is delivered nowhere (the
`|| {resolve: () => {}, reject: () => {}}` dummy). -/
def wsDeliver (s : WsState) (packet : WsPacket) (isError : Bool) :
    WsState × Option WsDelivery :=
  match List.lookup packet.requestId s.registry with
  | some t => ({ s with registry := assocErase s.registry packet.requestId },
      some { future := t, packet := packet, isError := isError })
  | none => (s, none)

/-- One event transition, paired with the packet delivery it performs (if
any).  `request` registers a fresh future under the generated id (lines
450-451); `close` rejects and clears all pending futures (lines 111-114; the
close-time rejections are not packet deliveries). -/
def wsStep (s : WsState) : WsEvent → WsState × Option WsDelivery
  | WsEvent.request _ rid =>
    ({ registry := assocSet s.registry rid s.rids.length, rids := s.rids ++ [rid] }, none)
  | WsEvent.response packet => wsDeliver s packet false
  | WsEvent.processingError packet => wsDeliver s packet true
  | WsEvent.close => ({ s with registry := [] }, none)

/-- Run an event trace from the idle client, collecting all deliveries. -/
def wsRunFrom (s : WsState) (dels : List WsDelivery) : List WsEvent → WsState × List WsDelivery
  | [] => (s, dels)
  | e :: rest =>
    let r := wsStep s e
    wsRunFrom r.1 (dels ++ r.2.toList) rest

/-- Run an event trace from the idle client. -/
def wsRun (evs : List WsEvent) : WsState × List WsDelivery :=
  wsRunFrom initialWsState [] evs

/-- Lines 452-453 of `_rpcRequest`: the generated `requestId` and the
`accountId` are attached to the outgoing request payload before it is
emitted. -/
def rpcAttach (accountId requestId : String) (request : List (String × JValue)) :
    List (String × JValue) :=
  assocSet (assocSet request "accountId" (JValue.str accountId)) "requestId"
    (JValue.str requestId)


theorem beq_str_comm_false {a b : String} (h : (a == b) = false) : (b == a) = false :=
  beq_eq_false_iff_ne.mpr (Ne.symm (beq_eq_false_iff_ne.mp h))

theorem lookup_map_overwrite {β : Type} (k : String) (v : β) :
    ∀ l : List (String × β),
      List.lookup k (l.map (fun p => if p.1 == k then (k, v) else p)) =
        if l.any (fun p => p.1 == k) then some v else List.lookup k l
  | [] => by simp
  | hd :: tl => by
    rcases h : hd.1 == k with _ | _
    · have h2 : (k == hd.1) = false := beq_str_comm_false h
      simp only [List.map_cons]
      rw [if_neg (by simp [h])]
      simp only [List.lookup, h2, lookup_map_overwrite k v tl, List.any_cons, h,
        Bool.false_or]
    · simp only [List.map_cons]
      rw [if_pos h]
      simp only [List.lookup, beq_self_eq_true, List.any_cons, h, Bool.true_or, if_true]

theorem lookup_append_none {β : Type} (k : String) (l2 : List (String × β)) :
    ∀ l : List (String × β), l.any (fun p => p.1 == k) = false →
      List.lookup k (l ++ l2) = List.lookup k l2
  | [], _ => by simp
  | hd :: tl, h => by
    simp only [List.any_cons, Bool.or_eq_false_iff] at h
    have h2 : (k == hd.1) = false := beq_str_comm_false h.1
    simp only [List.cons_append, List.lookup, h2]
    exact lookup_append_none k l2 tl h.2

theorem lookup_assocSet_self {β : Type} (l : List (String × β)) (k : String) (v : β) :
    List.lookup k (assocSet l k v) = some v := by
  unfold assocSet
  rcases hany : l.any (fun p => p.1 == k) with _ | _
  · simp only [Bool.false_eq_true, if_false]
    rw [lookup_append_none k _ l hany]
    simp [List.lookup]
  · simp only [if_true]
    rw [lookup_map_overwrite k v l, hany, if_pos rfl]

theorem lookup_map_overwrite_ne {β : Type} (k k2 : String) (v : β) (hne : k2 ≠ k) :
    ∀ l : List (String × β),
      List.lookup k2 (l.map (fun p => if p.1 == k then (k, v) else p)) = List.lookup k2 l
  | [] => by simp
  | hd :: tl => by
    rcases h : hd.1 == k with _ | _
    · simp only [List.map_cons]
      rw [if_neg (by simp [h])]
      simp only [List.lookup, lookup_map_overwrite_ne k k2 v hne tl]
    · have hk : hd.1 = k := beq_iff_eq.mp h
      have h2 : (k2 == k) = false := beq_eq_false_iff_ne.mpr hne
      have h3 : (k2 == hd.1) = false := by rw [hk]; exact h2
      simp only [List.map_cons]
      rw [if_pos h]
      simp only [List.lookup, h2, h3, lookup_map_overwrite_ne k k2 v hne tl]

theorem lookup_append_single_ne {β : Type} (k k2 : String) (v : β) (hne : k2 ≠ k) :
    ∀ l : List (String × β), List.lookup k2 (l ++ [(k, v)]) = List.lookup k2 l
  | [] => by
    have h2 : (k2 == k) = false := beq_eq_false_iff_ne.mpr hne
    simp [List.lookup, h2]
  | hd :: tl => by
    rcases h : k2 == hd.1 with _ | _
    · simp only [List.cons_append, List.lookup, h]
      exact lookup_append_single_ne k k2 v hne tl
    · simp only [List.cons_append, List.lookup, h]

theorem lookup_assocSet_ne {β : Type} (l : List (String × β)) (k k2 : String) (v : β)
    (hne : k2 ≠ k) : List.lookup k2 (assocSet l k v) = List.lookup k2 l := by
  unfold assocSet
  rcases hany : l.any (fun p => p.1 == k) with _ | _
  · simp only [Bool.false_eq_true, if_false]
    exact lookup_append_single_ne k k2 v hne l
  · simp only [if_true]
    exact lookup_map_overwrite_ne k k2 v hne l

theorem mem_assocSet {β : Type} {l : List (String × β)} {k : String} {v : β}
    {p : String × β} (h : p ∈ assocSet l k v) : p ∈ l ∨ p = (k, v) := by
  unfold assocSet at h
  rcases hany : l.any (fun p => p.1 == k) with _ | _
  · rw [hany] at h
    simp only [Bool.false_eq_true, if_false, List.mem_append, List.mem_singleton] at h
    exact h
  · rw [hany, if_pos rfl] at h
    obtain ⟨q, hq, hfq⟩ := List.mem_map.mp h
    by_cases hqk : (q.1 == k) = true
    · right
      rw [if_pos hqk] at hfq
      exact hfq.symm
    · left
      rw [if_neg hqk] at hfq
      exact hfq ▸ hq

theorem mem_assocSet_ne {β : Type} {l : List (String × β)} {k : String} {v : β}
    {p : String × β} (hne : p.1 ≠ k) : p ∈ assocSet l k v ↔ p ∈ l := by
  constructor
  · intro h
    rcases mem_assocSet h with h2 | h2
    · exact h2
    · exact absurd (by rw [h2]) hne
  · intro h
    unfold assocSet
    rcases hany : l.any (fun q => q.1 == k) with _ | _
    · simp only [Bool.false_eq_true, if_false, List.mem_append]
      exact Or.inl h
    · simp only [if_true]
      have hp : p = (fun q => if q.1 == k then (k, v) else q) p := by
        show p = if (p.1 == k) = true then (k, v) else p
        rw [if_neg (by simp [beq_eq_false_iff_ne.mpr hne])]
      exact hp ▸ List.mem_map_of_mem _ h

theorem lookup_mem {β : Type} {k : String} {v : β} :
    ∀ {l : List (String × β)}, List.lookup k l = some v → (k, v) ∈ l
  | [], h => by simp [List.lookup] at h
  | hd :: tl, h => by
    rcases h2 : k == hd.1 with _ | _
    · simp only [List.lookup, h2] at h
      exact List.mem_cons_of_mem hd (lookup_mem h)
    · simp only [List.lookup, h2, Option.some.injEq] at h
      have hk : k = hd.1 := beq_iff_eq.mp h2
      have hhd : hd = (k, v) := by
        obtain ⟨a, b⟩ := hd
        simp only at hk h
        rw [hk, h]
      exact hhd ▸ List.mem_cons_self hd tl

theorem keys_assocSet {β : Type} (l : List (String × β)) (k : String) (v : β) :
    (assocSet l k v).map Prod.fst =
      if l.any (fun p => p.1 == k) then l.map Prod.fst else l.map Prod.fst ++ [k] := by
  unfold assocSet
  rcases hany : l.any (fun p => p.1 == k) with _ | _
  · simp
  · simp only [if_true, List.map_map]
    refine List.map_congr_left ?_
    intro a _
    by_cases hak : (a.1 == k) = true
    · simp only [Function.comp_apply]
      rw [if_pos hak]
      exact (beq_iff_eq.mp hak).symm
    · simp only [Function.comp_apply]
      rw [if_neg hak]

/-- A sample account information record used in concrete scenarios. -/
def aiSample : AccountInformation where
  platform := "mt5"
  balance := some (JNum.val 10000)
  equity := some (JNum.val 10000)
  margin := some (JNum.val 100)
  freeMargin := some (JNum.val 9900)
  marginLevel := some (JNum.val 300)
  rest := []

/-- A sample price used in concrete scenarios. -/
def priceSample (sym : String) (t : ℤ) : SymbolPrice where
  symbol := sym
  bid := some (JNum.val 1)
  ask := some (JNum.val 2)
  profitTickValue := some (JNum.val 1)
  lossTickValue := some (JNum.val 1)
  time := t

/-- When no position carries the removed id, `onPositionRemoved`'s inner
closure takes the tombstone branch: evict stale tombstones, then write
`removedPositions[id] = now`. -/
theorem removePosition_absent (s : TState) (id : String) (now : ℤ)
    (h : ∀ p ∈ s.positions, p.id ≠ id) :
    removePosition id now s = { s with removedPositions := (assocSet
      (s.removedPositions.filter (fun e => ¬ e.2 + 5 * 60 * 1000 < now)) id now) } := by
  unfold removePosition
  rw [List.find?_eq_none.mpr (fun p hp => by simp [h p hp])]

/-- C1 counterexample: `onAccountInformationUpdated` does mutate the combined
state (line 252 writes `this._combinedState.accountInformation`), so the claim
that every callback other than `onPendingOrdersSynchronized` leaves the
combined state unchanged is false already at the first account-information
packet on a fresh terminal state. -/
theorem c1_counterexample :
    (onAccountInformationUpdated "0" (some aiSample) initialModel).combinedState
      ≠ initialModel.combinedState := by
  intro h
  have h2 : some aiSample = (none : Option AccountInformation) :=
    congrArg TState.accountInformation h
  exact Option.noConfusion h2

/-- C1 (amended): the combined state is left unchanged by the instance-only
callbacks (`onConnected`, `onDisconnected`, `onBrokerConnectionStatusChanged`,
`onSynchronizationStarted`, `onPositionsReplaced`, `onPositionsSynchronized`,
`onPendingOrdersReplaced`, `onStreamClosed`), while the incremental update
callbacks mutate it directly through the same inner closures they apply to the
instance state, and `onPendingOrdersSynchronized` is the only callback that
replaces the combined view wholesale from an instance state. -/
theorem c1_combined_state_mutation_paths :
    (∀ idx m, (onConnected idx m).combinedState = m.combinedState)
    ∧ (∀ idx m, (onDisconnected idx m).combinedState = m.combinedState)
    ∧ (∀ idx c m, (onBrokerConnectionStatusChanged idx c m).combinedState = m.combinedState)
    ∧ (∀ idx a b c m,
        (onSynchronizationStarted idx a b c m).combinedState = m.combinedState)
    ∧ (∀ idx ps m, (onPositionsReplaced idx ps m).combinedState = m.combinedState)
    ∧ (∀ idx m, (onPositionsSynchronized idx m).combinedState = m.combinedState)
    ∧ (∀ idx os m, (onPendingOrdersReplaced idx os m).combinedState = m.combinedState)
    ∧ (∀ idx m, (onStreamClosed idx m).combinedState = m.combinedState)
    ∧ (∀ idx ai m, (onAccountInformationUpdated idx ai m).combinedState
        = { m.combinedState with accountInformation := ai })
    ∧ (∀ idx p m, (onPositionUpdated idx p m).combinedState
        = updatePosition p m.combinedState)
    ∧ (∀ idx pid now m, (onPositionRemoved idx pid now m).combinedState
        = removePosition pid now m.combinedState)
    ∧ (∀ idx o m, (onPendingOrderUpdated idx o m).combinedState
        = updatePendingOrder o m.combinedState)
    ∧ (∀ idx oid now m, (onPendingOrderCompleted idx oid now m).combinedState
        = completeOrder oid now m.combinedState)
    ∧ (∀ idx specs rem m, (onSymbolSpecificationsUpdated idx specs rem m).combinedState
        = updateSpecifications specs rem m.combinedState)
    ∧ (∀ idx prices e mg fm ml m, (onSymbolPricesUpdated idx prices e mg fm ml m).combinedState
        = updateSymbolPrices m.combinedState.specificationsBySymbol prices e mg fm ml
            m.combinedState)
    ∧ (∀ idx m, (onPendingOrdersSynchronized idx m).combinedState
        = { m.combinedState with
            accountInformation := (getState m idx).accountInformation
            positions := (getState m idx).positions
            orders := (getState m idx).orders
            specificationsBySymbol := (getState m idx).specificationsBySymbol
            positionsInitialized := true
            ordersInitialized := true
            completedOrders := []
            removedPositions := [] }) :=
  ⟨fun _ _ => rfl, fun _ _ => rfl, fun _ _ _ => rfl, fun _ _ _ _ _ => rfl,
   fun _ _ _ => rfl, fun _ _ => rfl, fun _ _ _ => rfl, fun _ _ => rfl,
   fun _ _ _ => rfl, fun _ _ _ => rfl, fun _ _ _ _ => rfl, fun _ _ _ => rfl,
   fun _ _ _ _ => rfl, fun _ _ _ _ => rfl, fun _ _ _ _ _ _ _ => rfl, fun _ _ => rfl⟩

/-- C3: a tombstone written by an earlier `onPositionRemoved` (at a positive
clock value, as `Date.now()` always is) makes a later `onPositionUpdated` for
the same id a no-op on that state: the position is not re-inserted.  The
positivity hypothesis reflects that the code's guard is the JS truthiness of
`removedPositions[id]`, which a real millisecond timestamp always satisfies. -/
theorem c3_tombstone_blocks_stale_update (state : TState) (position : Position) (now : ℤ)
    (habsent : ∀ p ∈ state.positions, p.id ≠ position.id) (hpos : 0 < now) :
    updatePosition position (removePosition position.id now state)
      = removePosition position.id now state
    ∧ ∀ p ∈ (removePosition position.id now state).positions, p.id ≠ position.id := by
  rw [removePosition_absent state position.id now habsent]
  have hidx : ({ state with removedPositions := (assocSet
      (state.removedPositions.filter (fun e => ¬ e.2 + 5 * 60 * 1000 < now))
      position.id now) } : TState).positions.findIdx? (fun p => p.id == position.id)
      = none :=
    List.findIdx?_eq_none_iff.mpr (fun p hp => by simp [habsent p hp])
  constructor
  · unfold updatePosition
    simp only [hidx, lookup_assocSet_self]
    rw [if_neg (by omega : ¬ now = 0)]
  · exact habsent

/-- C3 witness: on a fresh state, removing position "42" at time 1000 and then
replaying an update for "42" leaves the positions empty. -/
theorem c3_witness :
    (∀ p ∈ initialTState.positions, p.id ≠ "42") ∧ (0 : ℤ) < 1000
    ∧ updatePosition
        { id := "42", type := "POSITION_TYPE_BUY", symbol := "EURUSD", magic := none,
          openPrice := none, currentPrice := none, currentTickValue := none, volume := none,
          swap := none, commission := none, profit := none, unrealizedProfit := none,
          realizedProfit := none, rest := [] }
        (removePosition "42" 1000 initialTState)
      = removePosition "42" 1000 initialTState :=
  ⟨by simp [initialTState], by decide,
    (c3_tombstone_blocks_stale_update initialTState
      { id := "42", type := "POSITION_TYPE_BUY", symbol := "EURUSD", magic := none,
        openPrice := none, currentPrice := none, currentTickValue := none, volume := none,
        swap := none, commission := none, profit := none, unrealizedProfit := none,
        realizedProfit := none, rest := [] } 1000 (by simp [initialTState]) (by decide)).1⟩

/-- C6 counterexample: tombstone eviction is lazy.  After removing the absent
position "42" at t = 1000 ms, a further tombstone write at
t = 301000 ms = 1000 + 5 minutes still finds "42" present — the entry is not
absent five minutes after the removal, because entries are only evicted at a
later tombstone write, and only when strictly older than five minutes. -/
theorem c6_counterexample :
    (1000 : ℤ) + 5 * 60 * 1000 ≤ 301000
    ∧ List.lookup "42" ((removePosition "43" 301000 (removePosition "42" 1000
        initialTState)).removedPositions) = some 1000 := by
  exact ⟨by decide, by decide⟩

/-- C6 (amended): for successive removals of the same absent id,
`removedPositions[id]` holds the later timestamp; at every tombstone write,
every surviving entry for another id is younger than five minutes, and an
entry for another id survives a tombstone write exactly when it is not
strictly older than five minutes.  (Without a tombstone write nothing is
evicted; mere passage of five minutes does not remove the entry.) -/
theorem c6_tombstone_lifecycle :
    (∀ (s : TState) (id : String) (now1 now2 : ℤ),
      (∀ p ∈ s.positions, p.id ≠ id) → now2 < now1 + 5 * 60 * 1000 →
      List.lookup id (removePosition id now2 (removePosition id now1 s)).removedPositions
        = some now2)
    ∧ (∀ (s : TState) (id : String) (now : ℤ),
      (∀ p ∈ s.positions, p.id ≠ id) →
      ∀ k t, k ≠ id →
        ((k, t) ∈ (removePosition id now s).removedPositions ↔
          (k, t) ∈ s.removedPositions ∧ ¬ t + 5 * 60 * 1000 < now)) := by
  have hpositions : ∀ (s : TState) (id : String) (now : ℤ),
      (∀ p ∈ s.positions, p.id ≠ id) → (removePosition id now s).positions = s.positions := by
    intro s id now h
    rw [removePosition_absent s id now h]
  have hrp : ∀ (s : TState) (id : String) (now : ℤ),
      (∀ p ∈ s.positions, p.id ≠ id) → (removePosition id now s).removedPositions =
        assocSet (s.removedPositions.filter (fun e => ¬ e.2 + 5 * 60 * 1000 < now)) id now := by
    intro s id now h
    rw [removePosition_absent s id now h]
  constructor
  · intro s id now1 now2 habsent _
    rw [hrp (removePosition id now1 s) id now2
      (by rw [hpositions s id now1 habsent]; exact habsent)]
    exact lookup_assocSet_self _ id now2
  · intro s id now habsent k t hk
    rw [hrp s id now habsent]
    constructor
    · intro hmem
      have h2 := (mem_assocSet_ne (p := (k, t)) hk).mp hmem
      have h3 := List.mem_filter.mp h2
      refine ⟨h3.1, ?_⟩
      simpa using h3.2
    · intro hmem
      refine (mem_assocSet_ne (p := (k, t)) hk).mpr ?_
      exact List.mem_filter.mpr ⟨hmem.1, by simpa using hmem.2⟩

/-- C6 witness: two successive removals of "42" 1 second apart leave the later
timestamp, and a young foreign tombstone survives a write. -/
theorem c6_witness :
    ((∀ p ∈ initialTState.positions, p.id ≠ "42") ∧ (2000 : ℤ) < 1000 + 5 * 60 * 1000
      ∧ List.lookup "42" (removePosition "42" 2000
          (removePosition "42" 1000 initialTState)).removedPositions = some 2000)
    ∧ (("41", (900 : ℤ)) ∈ (removePosition "42" 2000
        { initialTState with removedPositions := [("41", 900)] }).removedPositions) :=
  ⟨⟨by simp [initialTState], by decide,
      c6_tombstone_lifecycle.1 initialTState "42" 1000 2000 (by simp [initialTState])
        (by decide)⟩,
    (c6_tombstone_lifecycle.2 { initialTState with removedPositions := [("41", 900)] }
        "42" 2000 (by simp [initialTState]) "41" 900 (by decide)).mpr
      ⟨by simp, by decide⟩⟩

/-- C7: the code sets `marginLevel` from the supplied argument exactly when
`freeMargin` is defined (lines 490-491), not when `marginLevel` itself is
defined.  With `freeMargin` supplied and `marginLevel` absent the stored
`marginLevel` is overwritten with `undefined`; with `marginLevel` supplied and
`freeMargin` absent the stored value survives.  Both evaluations contradict
the claimed per-argument gating. -/
theorem c7_marginLevel_gate_divergence :
    ((updateSymbolPrices [] [] none none (some (JNum.val 2000)) none
        { initialTState with accountInformation := some aiSample }).accountInformation.map
      AccountInformation.marginLevel) = some none
    ∧ ((updateSymbolPrices [] [] none none none (some (JNum.val 999))
        { initialTState with accountInformation := some aiSample }).accountInformation.map
      AccountInformation.marginLevel) = some (some (JNum.val 300)) := by
  exact ⟨rfl, rfl⟩

/-- C9 counterexample: `Math.max` applied to a one-element array coerces the
array to its single element, so a price update carrying exactly one price sets
`lastUpdateTime` to that price's time, not to `NaN`. -/
theorem c9_counterexample :
    (updateSymbolPrices [] [priceSample "EURUSD" 1000] none none none none
      initialTState).lastUpdateTime = JNum.val 1000
    ∧ JNum.val 1000 ≠ JNum.nan := by
  exact ⟨rfl, by decide⟩

/-- C9 (amended): `lastUpdateTime` is assigned `Math.max(prices.map(...))` —
`Math.max` applied to the array itself — which is `NaN` exactly when two or
more prices are supplied; a singleton array coerces to its element and the
empty array to `0`. -/
theorem c9_lastUpdateTime_maxOfArray (cs : List (String × Specification))
    (prices : List SymbolPrice) (e mg fm ml : Option JNum) (st : TState) :
    (2 ≤ prices.length →
      (updateSymbolPrices cs prices e mg fm ml st).lastUpdateTime = JNum.nan)
    ∧ (∀ p, prices = [p] →
      (updateSymbolPrices cs prices e mg fm ml st).lastUpdateTime = JNum.val p.time)
    ∧ (prices = [] →
      (updateSymbolPrices cs prices e mg fm ml st).lastUpdateTime = JNum.val 0) := by
  refine ⟨?_, ?_, ?_⟩
  · intro h
    match prices, h with
    | p1 :: p2 :: rest, _ => rfl
  · intro p hp
    subst hp
    rfl
  · intro hp
    subst hp
    rfl

/-- C9 witness: with two prices the stored `lastUpdateTime` is `NaN`. -/
theorem c9_witness :
    2 ≤ ([priceSample "A" 5, priceSample "B" 7] : List SymbolPrice).length
    ∧ (updateSymbolPrices [] [priceSample "A" 5, priceSample "B" 7] none none none none
        initialTState).lastUpdateTime = JNum.nan :=
  ⟨by decide, (c9_lastUpdateTime_maxOfArray [] [priceSample "A" 5, priceSample "B" 7]
      none none none none initialTState).1 (by decide)⟩

/-- Without a specification for the position's symbol in the combined state,
`_updatePositionProfits` is a no-op. -/
theorem updatePositionProfits_no_spec (cs : List (String × Specification)) (p : Position)
    (pr : SymbolPrice) (h : List.lookup p.symbol cs = none) :
    updatePositionProfits cs p pr = p := by
  unfold updatePositionProfits
  rw [h]

/-- A position whose symbol has no specification in the combined state passes
through the whole price loop unchanged. -/
theorem processPrices_mem_no_spec (cs : List (String × Specification)) :
    ∀ (prices : List SymbolPrice) (acc : PriceLoopAcc) (pos : Position),
      pos ∈ acc.positions → List.lookup pos.symbol cs = none →
      pos ∈ (processPrices cs acc prices).positions
  | [], _, _, hmem, _ => hmem
  | price :: rest, acc, pos, hmem, hnospec => by
    refine processPrices_mem_no_spec cs rest (priceStep cs acc price) pos ?_ hnospec
    have hfix : pricePositionUpdate cs (assocSet acc.pricesBySymbol price.symbol price) price pos
        = pos := by
      unfold pricePositionUpdate
      by_cases hsym : (pos.symbol == price.symbol) = true
      · rw [if_pos hsym]
        exact updatePositionProfits_no_spec cs pos price hnospec
      · rw [if_neg hsym]
        rcases List.lookup pos.symbol (assocSet acc.pricesBySymbol price.symbol price)
          with _ | p
        · rfl
        · show (if pos.unrealizedProfit = none then updatePositionProfits cs pos p else pos)
            = pos
          by_cases hurp : pos.unrealizedProfit = none
          · rw [if_pos hurp]
            exact updatePositionProfits_no_spec cs pos p hnospec
          · rw [if_neg hurp]
    exact hfix ▸ List.mem_map_of_mem _ hmem

/-- Reading the instance state back after `onSymbolPricesUpdated`. -/
theorem getState_onSymbolPricesUpdated (idx : String) (prices : List SymbolPrice)
    (e mg fm ml : Option JNum) (m : TerminalStateModel) :
    getState (onSymbolPricesUpdated idx prices e mg fm ml m) idx =
      updateSymbolPrices m.combinedState.specificationsBySymbol prices e mg fm ml
        (getState m idx) := by
  unfold onSymbolPricesUpdated getState setState
  simp only [lookup_assocSet_self, Option.getD_some]

/-- C10: `_updatePositionProfits` resolves the specification through the
`specification()` getter, which reads only the combined state's
`specificationsBySymbol`.  When the combined state has no specification for a
position's symbol, the position — including `profit`, `unrealizedProfit`,
`realizedProfit`, `currentPrice` and `currentTickValue` — is left unchanged by
any price update applied to the per-instance state, even when the instance's
own `specificationsBySymbol` contains that symbol (the statement never
consults it). -/
theorem c10_profit_update_reads_combined_specs (idx : String) (prices : List SymbolPrice)
    (e mg fm ml : Option JNum) (m : TerminalStateModel) (pos : Position)
    (hmem : pos ∈ (getState m idx).positions)
    (hnospec : List.lookup pos.symbol m.combinedState.specificationsBySymbol = none) :
    (∀ price, updatePositionProfits m.combinedState.specificationsBySymbol pos price = pos)
    ∧ pos ∈ (getState (onSymbolPricesUpdated idx prices e mg fm ml m) idx).positions := by
  constructor
  · intro price
    exact updatePositionProfits_no_spec _ pos price hnospec
  · rw [getState_onSymbolPricesUpdated]
    unfold updateSymbolPrices
    exact processPrices_mem_no_spec _ prices _ pos hmem hnospec

/-- A sample position on symbol "X" with all P&L fields populated. -/
def posX : Position where
  id := "1"
  type := "POSITION_TYPE_BUY"
  symbol := "X"
  magic := none
  openPrice := some (JNum.val 1)
  currentPrice := some (JNum.val 1)
  currentTickValue := some (JNum.val 1)
  volume := some (JNum.val 1)
  swap := none
  commission := none
  profit := some (JNum.val 5)
  unrealizedProfit := some (JNum.val 5)
  realizedProfit := some (JNum.val 0)
  rest := []

/-- A sample specification for symbol "X". -/
def specX : Specification where
  symbol := "X"
  digits := 5
  tickSize := some (JNum.val (1 / 100000))
  description := none
  rest := []

/-- A model whose instance "0" owns a specification for "X" while the combined
state has none. -/
def modelInstanceOnlySpec : TerminalStateModel where
  stateByInstanceIndex :=
    [("0", { initialTState with positions := [posX], specificationsBySymbol := [("X", specX)] })]
  combinedState := initialTState

/-- C10 witness: the instance itself has the specification for "X", the
combined state does not, and a price tick for "X" leaves the position intact. -/
theorem c10_witness :
    List.lookup "X" (getState modelInstanceOnlySpec "0").specificationsBySymbol = some specX
    ∧ posX ∈ (getState modelInstanceOnlySpec "0").positions
    ∧ List.lookup posX.symbol modelInstanceOnlySpec.combinedState.specificationsBySymbol = none
    ∧ posX ∈ (getState (onSymbolPricesUpdated "0" [priceSample "X" 1] none none none none
        modelInstanceOnlySpec) "0").positions :=
  ⟨rfl, List.mem_singleton.mpr rfl, rfl,
    (c10_profit_update_reads_combined_specs "0" [priceSample "X" 1] none none none none
      modelInstanceOnlySpec posX (List.mem_singleton.mpr rfl) rfl).2⟩

/-- Sorting by a string key yields a key-sorted list. -/
theorem sorted_insertionSort_key {α : Type} (key : α → String) (l : List α) :
    (List.insertionSort (fun a b => key a ≤ key b) l).Sorted (fun a b => key a ≤ key b) := by
  haveI : IsTotal α (fun a b => key a ≤ key b) := ⟨fun a b => le_total (key a) (key b)⟩
  haveI : IsTrans α (fun a b => key a ≤ key b) := ⟨fun a b c hab hbc => le_trans hab hbc⟩
  exact List.sorted_insertionSort _ l

/-- Sorting by a duplicate-free string key is invariant under permutation of
the input: the strictly key-sorted arrangement is unique. -/
theorem insertionSort_key_eq_of_perm {α : Type} (key : α → String) {l1 l2 : List α}
    (hp : l1.Perm l2) (hn : (l1.map key).Nodup) :
    List.insertionSort (fun a b => key a ≤ key b) l1
      = List.insertionSort (fun a b => key a ≤ key b) l2 := by
  haveI : IsAntisymm α (fun a b => key a < key b) :=
    ⟨fun a b h1 h2 => absurd h2 (not_lt.mpr (le_of_lt h1))⟩
  have hperm : (List.insertionSort (fun a b => key a ≤ key b) l1).Perm
      (List.insertionSort (fun a b => key a ≤ key b) l2) :=
    (List.perm_insertionSort _ l1).trans (hp.trans (List.perm_insertionSort _ l2).symm)
  have hn1 : ((List.insertionSort (fun a b => key a ≤ key b) l1).map key).Nodup :=
    (((List.perm_insertionSort _ l1).map key).nodup_iff).mpr hn
  have hn2 : ((List.insertionSort (fun a b => key a ≤ key b) l2).map key).Nodup :=
    ((hperm.map key).nodup_iff).mp hn1
  have hs1 : (List.insertionSort (fun a b => key a ≤ key b) l1).Sorted
      (fun a b => key a < key b) :=
    (List.Pairwise.and (sorted_insertionSort_key key l1) (List.pairwise_map.mp hn1)).imp
      (fun h => lt_of_le_of_ne h.1 h.2)
  have hs2 : (List.insertionSort (fun a b => key a ≤ key b) l2).Sorted
      (fun a b => key a < key b) :=
    (List.Pairwise.and (sorted_insertionSort_key key l2) (List.pairwise_map.mp hn2)).imp
      (fun h => lt_of_le_of_ne h.1 h.2)
  exact List.eq_of_perm_of_sorted hperm hs1 hs2

/-- `sortSpecifications` under permutation with duplicate-free symbols. -/
theorem sortSpecifications_eq_of_perm {l1 l2 : List Specification} (hp : l1.Perm l2)
    (hn : (l1.map Specification.symbol).Nodup) :
    sortSpecifications l1 = sortSpecifications l2 := by
  unfold sortSpecifications
  exact insertionSort_key_eq_of_perm (fun s => s.symbol) hp hn

/-- `sortPositions` under permutation with duplicate-free ids. -/
theorem sortPositions_eq_of_perm {l1 l2 : List Position} (hp : l1.Perm l2)
    (hn : (l1.map Position.id).Nodup) : sortPositions l1 = sortPositions l2 := by
  unfold sortPositions
  exact insertionSort_key_eq_of_perm (fun p => p.id) hp hn

/-- `sortOrders` under permutation with duplicate-free ids. -/
theorem sortOrders_eq_of_perm {l1 l2 : List PendingOrder} (hp : l1.Perm l2)
    (hn : (l1.map PendingOrder.id).Nodup) : sortOrders l1 = sortOrders l2 := by
  unfold sortOrders
  exact insertionSort_key_eq_of_perm (fun o => o.id) hp hn

/-- C4: `getHashes` is a deterministic function of the collections and
initialization flags alone (first conjunct), and is invariant under
permutation of the arrival order of specifications, positions and orders when
their keys are duplicate-free, as the data-model invariant guarantees — the
sort step normalizes the ordering (second conjunct). -/
theorem c4_getHashes_deterministic_and_order_invariant :
    (∀ (accountType : String) (s1 s2 : TState),
      s1.specificationsBySymbol = s2.specificationsBySymbol → s1.positions = s2.positions →
      s1.orders = s2.orders → s1.positionsInitialized = s2.positionsInitialized →
      s1.ordersInitialized = s2.ordersInitialized →
      getHashes accountType s1 = getHashes accountType s2)
    ∧ (∀ (accountType : String) (s1 s2 : TState),
      s1.positionsInitialized = s2.positionsInitialized →
      s1.ordersInitialized = s2.ordersInitialized →
      (s1.specificationsBySymbol.map Prod.snd).Perm (s2.specificationsBySymbol.map Prod.snd) →
      ((s1.specificationsBySymbol.map Prod.snd).map Specification.symbol).Nodup →
      s1.positions.Perm s2.positions → (s1.positions.map Position.id).Nodup →
      s1.orders.Perm s2.orders → (s1.orders.map PendingOrder.id).Nodup →
      getHashes accountType s1 = getHashes accountType s2) := by
  constructor
  · intro accountType s1 s2 h1 h2 h3 h4 h5
    unfold getHashes
    rw [h1, h2, h3, h4, h5]
  · intro accountType s1 s2 hpf hof hsp hsn hpp hpn hop hon
    have e1 : sortSpecifications (s1.specificationsBySymbol.map Prod.snd)
        = sortSpecifications (s2.specificationsBySymbol.map Prod.snd) :=
      sortSpecifications_eq_of_perm hsp hsn
    have e2 : sortPositions s1.positions = sortPositions s2.positions :=
      sortPositions_eq_of_perm hpp hpn
    have e3 : sortOrders s1.orders = sortOrders s2.orders :=
      sortOrders_eq_of_perm hop hon
    unfold getHashes
    rw [e1, e2, e3, hpf, hof]

/-- Specification fixture for symbol "AAA". -/
def specA : Specification where
  symbol := "AAA"
  digits := 3
  tickSize := some (JNum.val (1 / 1000))
  description := some "a"
  rest := []

/-- Specification fixture for symbol "BBB". -/
def specB : Specification where
  symbol := "BBB"
  digits := 2
  tickSize := some (JNum.val (1 / 100))
  description := none
  rest := []

/-- Position fixture with id "1". -/
def posA : Position := { posX with id := "1", symbol := "AAA" }

/-- Position fixture with id "2". -/
def posB : Position := { posX with id := "2", symbol := "BBB" }

/-- Pending-order fixture with id "1". -/
def ordA : PendingOrder where
  id := "1"
  type := "ORDER_TYPE_BUY_LIMIT"
  symbol := "AAA"
  magic := some 7
  currentPrice := none
  rest := []

/-- Pending-order fixture with id "2". -/
def ordB : PendingOrder := { ordA with id := "2", symbol := "BBB" }

/-- A state whose collections arrived in one order. -/
def statePermA : TState := { initialTState with
  specificationsBySymbol := [("AAA", specA), ("BBB", specB)]
  positions := [posA, posB]
  orders := [ordA, ordB]
  positionsInitialized := true
  ordersInitialized := true }

/-- The same collections arrived in the opposite order. -/
def statePermB : TState := { initialTState with
  specificationsBySymbol := [("BBB", specB), ("AAA", specA)]
  positions := [posB, posA]
  orders := [ordB, ordA]
  positionsInitialized := true
  ordersInitialized := true }

/-- C4 witness: the two arrival orders hash identically under `cloud-g1`. -/
theorem c4_witness :
    (statePermA.positions.map Position.id).Nodup
    ∧ getHashes "cloud-g1" statePermA = getHashes "cloud-g1" statePermB :=
  ⟨by decide,
    (c4_getHashes_deterministic_and_order_invariant).2 "cloud-g1" statePermA statePermB rfl rfl
      (show ([specA, specB] : List Specification).Perm [specB, specA] from
        List.Perm.swap specB specA [])
      (by decide)
      (show ([posA, posB] : List Position).Perm [posB, posA] from List.Perm.swap posB posA [])
      (by decide)
      (show ([ordA, ordB] : List PendingOrder).Perm [ordB, ordA] from
        List.Perm.swap ordB ordA [])
      (by decide)⟩

/-- `orderedInsert` commutes with a key-preserving map. -/
theorem orderedInsert_map_key {α : Type} (key : α → String) (g : α → α)
    (hg : ∀ a, key (g a) = key a) (a : α) :
    ∀ l : List α, List.orderedInsert (fun x y => key x ≤ key y) (g a) (l.map g)
      = (List.orderedInsert (fun x y => key x ≤ key y) a l).map g
  | [] => rfl
  | b :: t => by
    simp only [List.map_cons, List.orderedInsert]
    by_cases h : key a ≤ key b
    · rw [if_pos (by rw [hg, hg]; exact h), if_pos h]
      simp only [List.map_cons]
    · rw [if_neg (by rw [hg, hg]; exact h), if_neg h]
      rw [orderedInsert_map_key key g hg a t]
      simp only [List.map_cons]

/-- `insertionSort` by a key commutes with a key-preserving map. -/
theorem insertionSort_map_key {α : Type} (key : α → String) (g : α → α)
    (hg : ∀ a, key (g a) = key a) :
    ∀ l : List α, List.insertionSort (fun x y => key x ≤ key y) (l.map g)
      = (List.insertionSort (fun x y => key x ≤ key y) l).map g
  | [] => rfl
  | b :: t => by
    simp only [List.map_cons, List.insertionSort]
    rw [insertionSort_map_key key g hg t]
    exact orderedInsert_map_key key g hg b _

/-- The specification fixture of scenario S3. -/
def specEURUSD : Specification where
  symbol := "EURUSD"
  digits := 5
  tickSize := some (JNum.val (1 / 100000))
  description := some "desc"
  rest := []

/-- A terminal state holding only the S3 specification. -/
def stateS3 : TState :=
  { initialTState with specificationsBySymbol := [("EURUSD", specEURUSD)] }

/-- C5: under `cloud-g1` the S3 specification serializes with `description`
stripped, `digits` as the bare integer `5` and `tickSize` as `0.00001000`,
and the returned hash is the MD5 hex of exactly that serialization; under
`cloud-g2` natural JSON is used (keeping `description` and JS number
notation).  The last conjunct states description-stripping in general: under
`cloud-g1` the specifications hash never depends on the `description` fields. -/
theorem c5_g1_hash_serialization :
    (getHashes "cloud-g1" stateS3).specificationsMd5
      = some (md5Hex "[\x7b\"symbol\":\"EURUSD\",\"digits\":5,\"tickSize\":0.00001000\x7d]")
    ∧ (getHashes "cloud-g2" stateS3).specificationsMd5
      = some (md5Hex
          "[\x7b\"symbol\":\"EURUSD\",\"digits\":5,\"tickSize\":0.00001,\"description\":\"desc\"\x7d]")
    ∧ ∀ (s : TState) (f : Option String → Option String),
      (getHashes "cloud-g1" { s with specificationsBySymbol :=
          (s.specificationsBySymbol.map
            (fun kv => (kv.1, { kv.2 with description := f kv.2.description }))) }).specificationsMd5
        = (getHashes "cloud-g1" s).specificationsMd5 := by
  refine ⟨by with_unfolding_all decide, by with_unfolding_all decide, ?_⟩
  intro s f
  unfold getHashes
  have h1 : ((s.specificationsBySymbol.map
        (fun kv => (kv.1, { kv.2 with description := f kv.2.description }))).map Prod.snd)
      = (s.specificationsBySymbol.map Prod.snd).map
          (fun sp : Specification => { sp with description := f sp.description }) := by
    simp only [List.map_map]
    rfl
  have h2 : sortSpecifications ((s.specificationsBySymbol.map Prod.snd).map
        (fun sp : Specification => { sp with description := f sp.description }))
      = (sortSpecifications (s.specificationsBySymbol.map Prod.snd)).map
          (fun sp : Specification => { sp with description := f sp.description }) := by
    unfold sortSpecifications
    exact insertionSort_map_key (fun sp : Specification => sp.symbol)
      (fun sp : Specification => { sp with description := f sp.description }) (fun _ => rfl) _
  have h3 : ((sortSpecifications (s.specificationsBySymbol.map Prod.snd)).map
        (fun sp : Specification => { sp with description := f sp.description })).map
          (fun sp : Specification => { sp with description := none })
      = (sortSpecifications (s.specificationsBySymbol.map Prod.snd)).map
          (fun sp : Specification => { sp with description := none }) := by
    rw [List.map_map]
    rfl
  simp only [h1, h2]
  simp only [beq_self_eq_true, if_true, h3, List.length_map]

theorem jadd_comm (a b : JNum) : jadd a b = jadd b a := by
  cases a <;> cases b <;> simp [jadd, add_comm]

theorem jadd_assoc (a b c : JNum) : jadd (jadd a b) c = jadd a (jadd b c) := by
  cases a <;> cases b <;> cases c <;> simp [jadd, add_assoc]

theorem jadd_left_comm (a b c : JNum) : jadd a (jadd b c) = jadd b (jadd a c) := by
  rw [← jadd_assoc, jadd_comm a b, jadd_assoc]

theorem jadd_val_zero (a : JNum) : jadd a (JNum.val 0) = a := by
  cases a <;> simp [jadd]

/-- The per-position 2-decimal rounded sum of one field, as in the claim's
`Σ round(field, 2)` notation. -/
def sumRound2 (f : Position → Option JNum) (l : List Position) : JNum :=
  l.foldr (fun p acc => jadd (round2 (orZero (f p))) acc) (JNum.val 0)

/-- The mt5 reduce of lines 475-477 splits into the two sums of the claim. -/
theorem foldl_jadd_two (f g : Position → Option JNum) :
    ∀ (l : List Position) (c : JNum),
      l.foldl (fun a p => jadd (jadd a (round2 (orZero (f p)))) (round2 (orZero (g p)))) c
        = jadd c (jadd (sumRound2 f l) (sumRound2 g l))
  | [], c => by
    simp [sumRound2, jadd_val_zero]
  | p :: t, c => by
    simp only [List.foldl_cons, foldl_jadd_two f g t, sumRound2, List.foldr_cons]
    simp only [jadd_assoc, jadd_comm, jadd_left_comm]

/-- The mt4 reduce of lines 479-481 splits into the three sums of the claim. -/
theorem foldl_jadd_three (f g h : Position → Option JNum) :
    ∀ (l : List Position) (c : JNum),
      l.foldl (fun a p => jadd (jadd (jadd a (round2 (orZero (f p))))
          (round2 (orZero (g p)))) (round2 (orZero (h p)))) c
        = jadd c (jadd (sumRound2 f l) (jadd (sumRound2 g l) (sumRound2 h l)))
  | [], c => by
    simp [sumRound2, jadd_val_zero]
  | p :: t, c => by
    simp only [List.foldl_cons, foldl_jadd_three f g h t, sumRound2, List.foldr_cons]
    simp only [jadd_assoc, jadd_comm, jadd_left_comm]

/-- `_updatePositionProfits` never changes the symbol. -/
theorem updatePositionProfits_symbol (cs : List (String × Specification)) (p : Position)
    (pr : SymbolPrice) : (updatePositionProfits cs p pr).symbol = p.symbol := by
  unfold updatePositionProfits
  rcases List.lookup p.symbol cs with _ | spec
  · rfl
  · rfl

/-- The price-loop body never changes a position's symbol. -/
theorem pricePositionUpdate_symbol (cs : List (String × Specification))
    (m : List (String × SymbolPrice)) (pr : SymbolPrice) (pos : Position) :
    (pricePositionUpdate cs m pr pos).symbol = pos.symbol := by
  unfold pricePositionUpdate
  by_cases hsym : (pos.symbol == pr.symbol) = true
  · rw [if_pos hsym]
    exact updatePositionProfits_symbol cs pos pr
  · rw [if_neg hsym]
    rcases List.lookup pos.symbol m with _ | p
    · rfl
    · show (if pos.unrealizedProfit = none then updatePositionProfits cs pos p else pos).symbol
        = pos.symbol
      by_cases hurp : pos.unrealizedProfit = none
      · rw [if_pos hurp]
        exact updatePositionProfits_symbol cs pos p
      · rw [if_neg hurp]

/-- The `pricesInitialized` flag after a non-empty price loop is `true` exactly
when every position's symbol has an entry in the updated `pricesBySymbol`:
only the last iteration's check survives, it runs after the last price is
stored, and positions of the last symbol trivially have an entry. -/
theorem processPrices_initialized_iff (cs : List (String × Specification)) :
    ∀ (rest : List SymbolPrice) (price : SymbolPrice) (acc : PriceLoopAcc),
      ((processPrices cs acc (price :: rest)).pricesInitialized = true ↔
        ∀ pos ∈ (processPrices cs acc (price :: rest)).positions,
          (List.lookup pos.symbol (processPrices cs acc (price :: rest)).pricesBySymbol).isSome
            = true)
  | [], price, acc => by
    show ((priceStep cs acc price).pricesInitialized = true ↔
      ∀ pos ∈ (priceStep cs acc price).positions,
        (List.lookup pos.symbol (priceStep cs acc price).pricesBySymbol).isSome = true)
    unfold priceStep
    simp only [List.all_eq_true, List.mem_map, Bool.or_eq_true, forall_exists_index, and_imp]
    constructor
    · intro hall pos2 pos hpos hf
      have hsym : pos2.symbol = pos.symbol := by
        rw [← hf]
        exact pricePositionUpdate_symbol cs _ price pos
      rcases hall pos hpos with hbeq | hsome
      · rw [hsym, beq_iff_eq.mp hbeq, lookup_assocSet_self]
        rfl
      · rw [hsym]
        exact hsome
    · intro hall pos hpos
      right
      have h2 := hall (pricePositionUpdate cs (assocSet acc.pricesBySymbol price.symbol price)
        price pos) pos hpos rfl
      rw [pricePositionUpdate_symbol cs _ price pos] at h2
      exact h2
  | q :: rest2, price, acc =>
    processPrices_initialized_iff cs rest2 q (priceStep cs acc price)

theorem val_zero_jadd (a : JNum) : jadd (JNum.val 0) a = a := by
  cases a <;> simp [jadd]

/-- C2 (amended): when `onSymbolPricesUpdated` is invoked with a non-empty
price list and no `equity` argument while `accountInformation` is present,
`positionsInitialized` is true and every position's symbol has a price in the
updated `pricesBySymbol`, the stored equity becomes
`balance + Σ round(unrealizedProfit,2) + Σ round(swap,2)` for `mt5` and
`balance + Σ round(swap,2) + Σ round(commission,2) + Σ round(unrealizedProfit,2)`
otherwise, the whole sum rounded once more to 2 decimals (line 483, which the
claim's formula omits); the sums range over the updated positions.  When
`positionsInitialized` is false, the price list is empty, or some position's
symbol has no price, a server-supplied equity value is stored as-is. -/
theorem c2_equity_recomputation :
    (∀ (cs : List (String × Specification)) (price : SymbolPrice) (prices : List SymbolPrice)
      (mg fm ml : Option JNum) (state : TState) (ai : AccountInformation),
      state.accountInformation = some ai → state.positionsInitialized = true →
      (∀ pos ∈ (updateSymbolPrices cs (price :: prices) none mg fm ml state).positions,
        (List.lookup pos.symbol
          (updateSymbolPrices cs (price :: prices) none mg fm ml state).pricesBySymbol).isSome
          = true) →
      ((updateSymbolPrices cs (price :: prices) none mg fm ml state).accountInformation.map
          AccountInformation.equity)
        = some (some (if ai.platform == "mt5" then
            round2 (jadd (jadd (toNum ai.balance)
              (sumRound2 Position.unrealizedProfit
                (updateSymbolPrices cs (price :: prices) none mg fm ml state).positions))
              (sumRound2 Position.swap
                (updateSymbolPrices cs (price :: prices) none mg fm ml state).positions))
          else
            round2 (jadd (jadd (jadd (toNum ai.balance)
              (sumRound2 Position.swap
                (updateSymbolPrices cs (price :: prices) none mg fm ml state).positions))
              (sumRound2 Position.commission
                (updateSymbolPrices cs (price :: prices) none mg fm ml state).positions))
              (sumRound2 Position.unrealizedProfit
                (updateSymbolPrices cs (price :: prices) none mg fm ml state).positions)))))
    ∧ (∀ (cs : List (String × Specification)) (prices : List SymbolPrice) (e : JNum)
      (mg fm ml : Option JNum) (state : TState) (ai : AccountInformation),
      state.accountInformation = some ai →
      (state.positionsInitialized = false ∨ prices = [] ∨
        ∃ pos ∈ (updateSymbolPrices cs prices (some e) mg fm ml state).positions,
          List.lookup pos.symbol
            (updateSymbolPrices cs prices (some e) mg fm ml state).pricesBySymbol = none) →
      ((updateSymbolPrices cs prices (some e) mg fm ml state).accountInformation.map
          AccountInformation.equity) = some (some e)) := by
  constructor
  · intro cs price prices mg fm ml state ai hai hpi hall
    have hflag : (processPrices cs
        { pricesBySymbol := state.pricesBySymbol, positions := state.positions,
          orders := state.orders, pricesInitialized := false }
        (price :: prices)).pricesInitialized = true :=
      (processPrices_initialized_iff cs prices price _).mpr hall
    show ((updateSymbolPrices cs (price :: prices) none mg fm ml state).accountInformation.map
        AccountInformation.equity) = _
    unfold updateSymbolPrices
    rw [hai]
    simp only [Option.map_some]
    unfold updateAccountInformation
    rw [hpi, hflag]
    simp only [Bool.and_self, if_true]
    by_cases hplat : (ai.platform == "mt5") = true
    · rw [if_pos hplat, if_pos hplat]
      rw [foldl_jadd_two Position.unrealizedProfit Position.swap]
      rw [val_zero_jadd, ← jadd_assoc]
      rfl
    · rw [if_neg hplat, if_neg hplat]
      rw [foldl_jadd_three Position.swap Position.commission Position.unrealizedProfit]
      rw [val_zero_jadd, ← jadd_assoc, ← jadd_assoc]
      rfl
  · intro cs prices e mg fm ml state ai hai hfail
    have hcond : (state.positionsInitialized && (processPrices cs
        { pricesBySymbol := state.pricesBySymbol, positions := state.positions,
          orders := state.orders, pricesInitialized := false } prices).pricesInitialized)
        = false := by
      rcases hfail with hpi | hnil | ⟨pos, hpos, hnone⟩
      · rw [hpi]
        rfl
      · subst hnil
        simp [processPrices]
      · rcases prices with _ | ⟨price, rest⟩
        · simp [processPrices]
        · rcases hfl : (processPrices cs
            { pricesBySymbol := state.pricesBySymbol, positions := state.positions,
              orders := state.orders, pricesInitialized := false }
            (price :: rest)).pricesInitialized with _ | _
          · simp
          · have h2 := (processPrices_initialized_iff cs rest price _).mp hfl pos hpos
            have hnone2 : List.lookup pos.symbol (processPrices cs
                { pricesBySymbol := state.pricesBySymbol, positions := state.positions,
                  orders := state.orders, pricesInitialized := false }
                (price :: rest)).pricesBySymbol = none := hnone
            rw [hnone2] at h2
            simp at h2
    show ((updateSymbolPrices cs prices (some e) mg fm ml state).accountInformation.map
        AccountInformation.equity) = _
    unfold updateSymbolPrices
    rw [hai]
    simp only [Option.map_some]
    unfold updateAccountInformation
    rw [hcond]
    simp only [Bool.false_eq_true, if_false]
    rfl

/-- The account information of scenario S2. -/
def aiS2 : AccountInformation where
  platform := "mt5"
  balance := some (JNum.val 10000)
  equity := some (JNum.val 10000)
  margin := none
  freeMargin := none
  marginLevel := none
  rest := []

/-- The first S2 position: `swap=-1, unrealizedProfit=25.123`. -/
def posS2a : Position := { posX with
  id := "1"
  symbol := "A"
  unrealizedProfit := some (JNum.val (25123 / 1000))
  swap := some (JNum.val (-1)) }

/-- The second S2 position: `swap=-2, unrealizedProfit=-10`. -/
def posS2b : Position := { posX with
  id := "2"
  symbol := "B"
  unrealizedProfit := some (JNum.val (-10))
  swap := some (JNum.val (-2)) }

/-- The state of scenario S2: two priced positions, synchronization done. -/
def stS2 : TState := { initialTState with
  accountInformation := some aiS2
  positions := [posS2a, posS2b]
  pricesBySymbol := [("A", priceSample "A" 1), ("B", priceSample "B" 1)]
  positionsInitialized := true }

/-- C2 witness (scenario S2): a price tick with no equity argument stores
`equity = 10000 + 25.12 + (-10) + (-1) + (-2) = 10012.12`. -/
theorem c2_witness :
    stS2.accountInformation = some aiS2
    ∧ stS2.positionsInitialized = true
    ∧ (∀ pos ∈ (updateSymbolPrices [] [priceSample "A" 2] none none none none stS2).positions,
        (List.lookup pos.symbol
          (updateSymbolPrices [] [priceSample "A" 2] none none none none
            stS2).pricesBySymbol).isSome = true)
    ∧ ((updateSymbolPrices [] [priceSample "A" 2] none none none none
          stS2).accountInformation.map AccountInformation.equity)
        = some (some (JNum.val (1001212 / 100))) := by
  have hall : ∀ pos ∈ (updateSymbolPrices [] [priceSample "A" 2] none none none none
      stS2).positions,
      (List.lookup pos.symbol
        (updateSymbolPrices [] [priceSample "A" 2] none none none none
          stS2).pricesBySymbol).isSome = true := by
    decide
  refine ⟨rfl, rfl, hall, ?_⟩
  have h := (c2_equity_recomputation).1 [] (priceSample "A" 2) [] none none none stS2 aiS2
    rfl rfl hall
  rw [h]
  simp only [Option.some.injEq]
  have hplat : (aiS2.platform == "mt5") = true := by decide
  rw [if_pos hplat]
  have hP : (updateSymbolPrices [] [priceSample "A" 2] none none none none stS2).positions
      = [posS2a, posS2b] := rfl
  rw [hP]
  have e1 : sumRound2 Position.unrealizedProfit [posS2a, posS2b] = JNum.val (1512 / 100) := by
    norm_num [sumRound2, posS2a, posS2b, posX, orZero, round2, roundMult, jsRound, jadd]
  have e2 : sumRound2 Position.swap [posS2a, posS2b] = JNum.val (-3) := by
    norm_num [sumRound2, posS2a, posS2b, posX, orZero, round2, roundMult, jsRound, jadd]
  rw [e1, e2]
  norm_num [aiS2, toNum, jadd, round2, roundMult, jsRound]

/-- The account information of the C2 counterexample: a balance with a third
decimal digit. -/
def aiBalanceOdd : AccountInformation where
  platform := "mt5"
  balance := some (JNum.val (20001 / 200))
  equity := some (JNum.val 50)
  margin := none
  freeMargin := none
  marginLevel := none
  rest := []

/-- The state of the C2 counterexample: no positions, synchronization done. -/
def stBalanceOdd : TState := { initialTState with
  accountInformation := some aiBalanceOdd
  positionsInitialized := true }

/-- C2 counterexample: with balance 100.005, `positionsInitialized` true, no
positions (so every position trivially priced) and no equity argument, the
claim's formula gives `balance + 0 + 0 = 100.005`, but the code stores
`Math.round(100.005 * 100)/100 = 100.01` — line 483 rounds the recomputed
equity once more, which the claimed formula omits. -/
theorem c2_counterexample :
    ((updateSymbolPrices [] [priceSample "A" 1] none none none none
        stBalanceOdd).accountInformation.map AccountInformation.equity)
      = some (some (JNum.val (10001 / 100)))
    ∧ jadd (jadd (toNum aiBalanceOdd.balance)
        (sumRound2 Position.unrealizedProfit
          (updateSymbolPrices [] [priceSample "A" 1] none none none none
            stBalanceOdd).positions))
        (sumRound2 Position.swap
          (updateSymbolPrices [] [priceSample "A" 1] none none none none
            stBalanceOdd).positions)
      = JNum.val (20001 / 200)
    ∧ JNum.val (10001 / 100) ≠ JNum.val (20001 / 200) := by
  have hP : (updateSymbolPrices [] [priceSample "A" 1] none none none none
      stBalanceOdd).positions = [] := rfl
  refine ⟨?_, ?_, ?_⟩
  · have h1 : (updateSymbolPrices [] [priceSample "A" 1] none none none none
        stBalanceOdd).accountInformation
        = some (updateAccountInformation aiBalanceOdd true true [] none none none none) := rfl
    rw [h1]
    show some ((updateAccountInformation aiBalanceOdd true true [] none none none none).equity)
      = _
    have h2 : (updateAccountInformation aiBalanceOdd true true [] none none none none).equity
        = some (round2 (jadd (toNum aiBalanceOdd.balance) (JNum.val 0))) := rfl
    rw [h2]
    simp only [Option.some.injEq]
    norm_num [aiBalanceOdd, toNum, jadd, round2, roundMult, jsRound]
  · rw [hP]
    show jadd (jadd (toNum aiBalanceOdd.balance) (JNum.val 0)) (JNum.val 0)
      = JNum.val (20001 / 200)
    norm_num [aiBalanceOdd, toNum, jadd]
  · simp only [ne_eq, JNum.val.injEq]
    norm_num

theorem mem_assocErase {β : Type} {l : List (String × β)} {k : String} {p : String × β}
    (h : p ∈ assocErase l k) : p ∈ l ∧ p.1 ≠ k := by
  unfold assocErase at h
  have h2 := List.mem_filter.mp h
  refine ⟨h2.1, ?_⟩
  simpa using h2.2

/-- The inductive invariant of a multiplexer run: every pending entry maps the
id generated for its future, ids and future tokens are duplicate-free in the
pending map, every delivery so far went to a future under its own generated
id, a delivered future is no longer pending, and no future received two
deliveries. -/
structure WsInv (s : WsState) (dels : List WsDelivery) : Prop where
  reg_lt : ∀ p ∈ s.registry, p.2 < s.rids.length
  reg_rid : ∀ p ∈ s.registry, s.rids[p.2]? = some p.1
  keys_nodup : (s.registry.map Prod.fst).Nodup
  tokens_nodup : (s.registry.map Prod.snd).Nodup
  del_lt : ∀ d ∈ dels, d.future < s.rids.length
  del_rid : ∀ d ∈ dels, s.rids[d.future]? = some d.packet.requestId
  del_not_reg : ∀ d ∈ dels, ∀ p ∈ s.registry, p.2 ≠ d.future
  del_nodup : (dels.map WsDelivery.future).Nodup

theorem wsInv_initial : WsInv initialWsState [] := by
  constructor <;> simp [initialWsState]

theorem wsInv_request (s : WsState) (dels : List WsDelivery) (rid : String)
    (h : WsInv s dels) :
    WsInv { registry := assocSet s.registry rid s.rids.length, rids := s.rids ++ [rid] }
      dels := by
  constructor
  · intro p hp
    rcases mem_assocSet hp with hmem | heq
    · have h2 := h.reg_lt p hmem
      simp only [List.length_append, List.length_singleton]
      omega
    · rw [heq]
      simp only [List.length_append, List.length_singleton]
      omega
  · intro p hp
    rcases mem_assocSet hp with hmem | heq
    · rw [List.getElem?_append_left (h.reg_lt p hmem)]
      exact h.reg_rid p hmem
    · rw [heq]
      exact List.getElem?_concat_length _ _
  · rw [keys_assocSet]
    rcases hany : s.registry.any (fun p => p.1 == rid) with _ | _
    · simp only [Bool.false_eq_true, if_false]
      rw [List.nodup_append]
      refine ⟨h.keys_nodup, List.nodup_singleton rid, ?_⟩
      intro k hk hk2
      simp only [List.mem_singleton] at hk2
      rw [hk2] at hk
      obtain ⟨p, hp, hpk⟩ := List.mem_map.mp hk
      have hcontra : s.registry.any (fun p => p.1 == rid) = true :=
        List.any_eq_true.mpr ⟨p, hp, by simp [hpk]⟩
      rw [hcontra] at hany
      exact Bool.noConfusion hany
    · simp only [if_true]
      exact h.keys_nodup
  · unfold assocSet
    rcases hany : s.registry.any (fun p => p.1 == rid) with _ | _
    · simp only [Bool.false_eq_true, if_false, List.map_append]
      rw [List.nodup_append]
      refine ⟨h.tokens_nodup, by simp, ?_⟩
      intro x hx hx2
      simp only [List.map_cons, List.map_nil, List.mem_singleton] at hx2
      subst hx2
      obtain ⟨p, hp, hpx⟩ := List.mem_map.mp hx
      have h2 := h.reg_lt p hp
      omega
    · simp only [if_true]
      have hmap : (s.registry.map (fun p => if p.1 == rid then (rid, s.rids.length) else p)).map
          Prod.snd = s.registry.map (fun p => if p.1 == rid then s.rids.length else p.2) := by
        rw [List.map_map]
        refine List.map_congr_left ?_
        intro p _
        by_cases hpk : (p.1 == rid) = true
        · simp only [Function.comp_apply]
          rw [if_pos hpk, if_pos hpk]
        · simp only [Function.comp_apply]
          rw [if_neg hpk, if_neg hpk]
      rw [hmap]
      have hkp : s.registry.Pairwise (fun a b => a.1 ≠ b.1) := List.pairwise_map.mp h.keys_nodup
      have htp : s.registry.Pairwise (fun a b => a.2 ≠ b.2) :=
        List.pairwise_map.mp h.tokens_nodup
      refine List.pairwise_map.mpr ?_
      refine List.Pairwise.imp_of_mem ?_ (List.Pairwise.and hkp htp)
      intro a b ha hb hab
      by_cases h1 : (a.1 == rid) = true <;> by_cases h2 : (b.1 == rid) = true
      · exact absurd ((beq_iff_eq.mp h1).trans (beq_iff_eq.mp h2).symm) hab.1
      · rw [if_pos h1, if_neg h2]
        have h3 := h.reg_lt b hb
        omega
      · rw [if_neg h1, if_pos h2]
        have h3 := h.reg_lt a ha
        omega
      · rw [if_neg h1, if_neg h2]
        exact hab.2
  · intro d hd
    have h2 := h.del_lt d hd
    simp only [List.length_append, List.length_singleton]
    omega
  · intro d hd
    rw [List.getElem?_append_left (h.del_lt d hd)]
    exact h.del_rid d hd
  · intro d hd p hp
    rcases mem_assocSet hp with hmem | heq
    · exact h.del_not_reg d hd p hmem
    · rw [heq]
      have h2 := h.del_lt d hd
      simp only
      omega
  · exact h.del_nodup

theorem wsInv_deliver (s : WsState) (dels : List WsDelivery) (packet : WsPacket)
    (isError : Bool) (h : WsInv s dels) :
    WsInv (wsDeliver s packet isError).1
      (dels ++ (wsDeliver s packet isError).2.toList) := by
  unfold wsDeliver
  rcases hl : List.lookup packet.requestId s.registry with _ | t
  · show WsInv s (dels ++ [])
    rw [List.append_nil]
    exact h
  · have hmem : (packet.requestId, t) ∈ s.registry := lookup_mem hl
    show WsInv { s with registry := assocErase s.registry packet.requestId }
      (dels ++ [{ future := t, packet := packet, isError := isError }])
    constructor
    · intro p hp
      exact h.reg_lt p (mem_assocErase hp).1
    · intro p hp
      exact h.reg_rid p (mem_assocErase hp).1
    · exact h.keys_nodup.sublist ((List.filter_sublist _).map Prod.fst)
    · exact h.tokens_nodup.sublist ((List.filter_sublist _).map Prod.snd)
    · intro d hd
      rcases List.mem_append.mp hd with hdo | hdn
      · exact h.del_lt d hdo
      · simp only [List.mem_singleton] at hdn
        subst hdn
        exact h.reg_lt _ hmem
    · intro d hd
      rcases List.mem_append.mp hd with hdo | hdn
      · exact h.del_rid d hdo
      · simp only [List.mem_singleton] at hdn
        subst hdn
        exact h.reg_rid _ hmem
    · intro d hd p hp
      have hpmem := (mem_assocErase hp).1
      have hpne := (mem_assocErase hp).2
      rcases List.mem_append.mp hd with hdo | hdn
      · exact h.del_not_reg d hdo p hpmem
      · simp only [List.mem_singleton] at hdn
        subst hdn
        intro hpt
        have : p = (packet.requestId, t) :=
          List.inj_on_of_nodup_map h.tokens_nodup hpmem hmem (by rw [hpt])
        exact hpne (by rw [this])
    · simp only [List.map_append, List.map_cons, List.map_nil]
      rw [List.nodup_append]
      refine ⟨h.del_nodup, by simp, ?_⟩
      intro x hx hx2
      simp only [List.mem_singleton] at hx2
      subst hx2
      obtain ⟨d, hd, hdx⟩ := List.mem_map.mp hx
      exact (h.del_not_reg d hd _ hmem) hdx.symm

theorem wsInv_step (s : WsState) (dels : List WsDelivery) (e : WsEvent) (h : WsInv s dels) :
    WsInv (wsStep s e).1 (dels ++ (wsStep s e).2.toList) := by
  cases e with
  | request acc rid =>
    show WsInv { registry := assocSet s.registry rid s.rids.length, rids := s.rids ++ [rid] }
      (dels ++ [])
    rw [List.append_nil]
    exact wsInv_request s dels rid h
  | response packet => exact wsInv_deliver s dels packet false h
  | processingError packet => exact wsInv_deliver s dels packet true h
  | close =>
    show WsInv { s with registry := [] } (dels ++ [])
    rw [List.append_nil]
    constructor
    · intro p hp
      exact absurd hp (List.not_mem_nil p)
    · intro p hp
      exact absurd hp (List.not_mem_nil p)
    · simp
    · simp
    · exact h.del_lt
    · exact h.del_rid
    · intro d _ p hp
      exact absurd hp (List.not_mem_nil p)
    · exact h.del_nodup

theorem wsInv_runFrom : ∀ (evs : List WsEvent) (s : WsState) (dels : List WsDelivery),
    WsInv s dels → WsInv (wsRunFrom s dels evs).1 (wsRunFrom s dels evs).2
  | [], _, _, h => h
  | e :: rest, s, dels, h => wsInv_runFrom rest _ _ (wsInv_step s dels e h)

theorem length_filter_le_one {α : Type} (f : α → ℕ) (t : ℕ) :
    ∀ l : List α, (l.map f).Nodup → (l.filter (fun x => f x == t)).length ≤ 1
  | [], _ => by simp
  | x :: l, h => by
    simp only [List.map_cons, List.nodup_cons] at h
    by_cases hx : (f x == t) = true
    · rw [List.filter_cons, if_pos hx]
      have hnil : l.filter (fun y => f y == t) = [] := by
        rw [List.filter_eq_nil_iff]
        intro y hy hyt
        exact h.1 (List.mem_map.mpr ⟨y, hy,
          (beq_iff_eq.mp hyt).trans (beq_iff_eq.mp hx).symm⟩)
      simp [hnil]
    · rw [List.filter_cons, if_neg hx]
      exact length_filter_le_one f t l h.2

/-- C8: `_rpcRequest` attaches the generated `requestId` (and the `accountId`)
to the outgoing payload, and responses are correlated back through
`_requestResolves`: along any event trace, a future whose request was tagged
with id `r` only ever receives packets whose `requestId` is `r`, and — because
the handlers delete the registry entry before settling — it receives at most
one delivery. -/
theorem c8_requestId_correlation :
    (∀ (accountId requestId : String) (request : List (String × JValue)),
      List.lookup "requestId" (rpcAttach accountId requestId request)
          = some (JValue.str requestId)
        ∧ List.lookup "accountId" (rpcAttach accountId requestId request)
          = some (JValue.str accountId))
    ∧ (∀ (evs : List WsEvent) (t : ℕ) (r : String),
      (wsRun evs).1.rids[t]? = some r →
      ((wsRun evs).2.filter (fun d => d.future == t)).length ≤ 1
        ∧ ∀ d ∈ (wsRun evs).2, d.future = t → d.packet.requestId = r) := by
  constructor
  · intro accountId requestId request
    refine ⟨lookup_assocSet_self _ _ _, ?_⟩
    unfold rpcAttach
    rw [lookup_assocSet_ne _ _ _ _ (by decide)]
    exact lookup_assocSet_self _ _ _
  · intro evs t r hr
    have hinv : WsInv (wsRun evs).1 (wsRun evs).2 :=
      wsInv_runFrom evs initialWsState [] wsInv_initial
    refine ⟨length_filter_le_one WsDelivery.future t (wsRun evs).2 hinv.del_nodup, ?_⟩
    intro d hd hft
    have h2 := hinv.del_rid d hd
    rw [hft, hr] at h2
    exact (Option.some.inj h2).symm

theorem c8_witness :
    (wsRun [WsEvent.request "acct" "R1",
        WsEvent.response { requestId := "R1" },
        WsEvent.response { requestId := "R1" }]).1.rids[0]?
        = some "R1"
    ∧ ((wsRun [WsEvent.request "acct" "R1",
        WsEvent.response { requestId := "R1" },
        WsEvent.response { requestId := "R1" }]).2.filter
          (fun d => d.future == 0)).length ≤ 1
    ∧ ∀ d ∈ (wsRun [WsEvent.request "acct" "R1",
        WsEvent.response { requestId := "R1" },
        WsEvent.response { requestId := "R1" }]).2,
        d.future = 0 → d.packet.requestId = "R1" := by
  have h := (c8_requestId_correlation.2
    [WsEvent.request "acct" "R1",
      WsEvent.response { requestId := "R1" },
      WsEvent.response { requestId := "R1" }] 0 "R1"
    (by rfl))
  exact ⟨by rfl, h.1, h.2⟩
